import Mathlib

/-!
Verification of the gopolls tally engine against its specification.

The Go source is shallowly embedded: Go structs become Lean structures,
interface values become inductive sums over the implementations found in the
repository, machine integers become `Nat`/`Int` with explicit reductions
modulo `2^32` (`Weight` is `uint32` in Go) where additions occur, and
fallible functions return `Except`/`Option`.  Mutating methods are embedded
in state-passing style: a method mutating its receiver returns the new value
of the receiver together with its ordinary results.
-/

namespace Gopolls

/-- `2^32`, the modulus of Go's `uint32`, the representation of `Weight`. -/
def W32 : Nat := 4294967296

/-- Addition of two `Weight` values (`uint32` wrap-around addition). -/
def wadd (a b : Nat) : Nat := (a + b) % W32

/-- `NoWeight` sentinel from `utils.go`: `math.MaxUint32`. -/
def NoWeight : Nat := 4294967295

/-- `NoMedianUnitValue` sentinel from `median.go`: `math.MaxUint64`. -/
def NoMedianUnitValue : Nat := 18446744073709551615

/-- `Voter` from `voter.go`: a name and a `Weight` (`uint32`, embedded as `Nat`
whose value is kept below `W32` by all parsing paths). -/
structure Voter where
  name : String
  weight : Nat
  deriving Repr, DecidableEq

/-- `CurrencyValue` from `currency.go`. -/
structure CurrencyValue where
  valueCents : Int
  currency : String
  deriving Repr, DecidableEq

/-- The error taxonomy from `error.go` and friends, collapsed to the
constructor kinds that the claims distinguish; each carries its message. -/
inductive PollError where
  | typeError (msg : String)
  | syntaxError (msg : String)
  | semanticError (msg : String)
  | duplicateError (msg : String)
  deriving Repr, DecidableEq

/-- `BasicVote` from `basic_poll.go`; `BasicPollAnswer` is an `int8` constant
(`No = 0`, `Aye = 1`, `Abstention = 2`), embedded as `Int`. -/
structure BasicVote where
  voter : Voter
  choice : Int
  deriving Repr, DecidableEq

/-- `BasicPollAnswer.IsValid` from `basic_poll.go`. -/
def BasicAnswerIsValid (a : Int) : Bool := a = 0 || a = 1 || a = 2

/-- `MedianVote` from `median.go`; `Value` is a `MedianUnit` (`uint64`). -/
structure MedianVote where
  voter : Voter
  value : Nat
  deriving Repr, DecidableEq

/-- `SchulzeVote` from `schulze.go`; the ranking entries are Go `int`s. -/
structure SchulzeVote where
  voter : Voter
  ranking : List Int
  deriving Repr, DecidableEq

/-- `BasicPoll` from `basic_poll.go`. -/
structure BasicPoll where
  votes : List BasicVote
  deriving Repr, DecidableEq

/-- `MedianPoll` from `median.go`. -/
structure MedianPoll where
  value : Nat
  votes : List MedianVote
  sorted : Bool
  deriving Repr, DecidableEq

/-- `SchulzePoll` from `schulze.go`. -/
structure SchulzePoll where
  numOptions : Nat
  votes : List SchulzeVote
  deriving Repr, DecidableEq

/-- The `AbstractPoll` interface, as the sum of its implementations. -/
inductive AbstractPoll where
  | basic (p : BasicPoll)
  | median (p : MedianPoll)
  | schulze (p : SchulzePoll)
  deriving Repr, DecidableEq

/-- The `AbstractVote` interface, as the sum of its implementations. -/
inductive AbstractVote where
  | basic (v : BasicVote)
  | median (v : MedianVote)
  | schulze (v : SchulzeVote)
  deriving Repr, DecidableEq

/-- The `AbstractPollSkeleton` interface from `skeletons.go`.  The repository
implements `MoneyPollSkeleton` and `PollSkeleton`; the extra constructor
`unknownSkeleton` stands for any other dynamic type reaching the `default`
branch of Go type switches over this interface. -/
inductive AbstractPollSkeleton where
  | money (name : String) (value : CurrencyValue)
  | choice (name : String) (options : List String)
  | unknownSkeleton
  deriving Repr, DecidableEq

/-- `ComputeMajority` from the majority-computation file: for a rational
majority `num/den` (a Go `big.Rat`, hence exact) and a vote sum, it forms
`(num * votesSum) / den` with floor division and casts the result back to
`Weight` (`uint32`). -/
def ComputeMajority (num den : Nat) (votesSum : Nat) : Nat :=
  ((num * votesSum) / den) % W32

/-- `detaultSkeletonConverterGenerator` from `abstract_poll.go` (the body of
`NewDefaultSkeletonConverter`): converts a skeleton into an empty poll. -/
def detaultSkeletonConverterGenerator (convertToBasic : Bool)
    (skel : AbstractPollSkeleton) : Except PollError AbstractPoll :=
  match skel with
  | .money _ value =>
      if value.valueCents < 0 then
        .error (.typeError "value for median poll is not allowed to be < 0")
      else
        .ok (.median { value := value.valueCents.toNat, votes := [], sorted := false })
  | .choice _ options =>
      let numOptions := options.length
      if numOptions = 0 ∨ numOptions = 1 then
        .error (.typeError "got too few options, but at least two options are required")
      else if numOptions = 2 ∧ convertToBasic then
        .ok (.basic { votes := [] })
      else
        .ok (.schulze { numOptions := numOptions, votes := [] })
  | .unknownSkeleton =>
      .error (.typeError "only money polls and basic polls are supported")

/-- `MedianPoll.AddVote` from `median.go`, in state-passing style: the Go
method mutates `poll.Votes` and returns an error; here the new poll is
returned together with the optional error. -/
def MedianPoll.AddVote (poll : MedianPoll) (vote : AbstractVote) :
    MedianPoll × Option PollError :=
  match vote with
  | .median v => ({ poll with votes := poll.votes ++ [v] }, none)
  | _ => (poll, some (.typeError "vote must be of type MedianVote"))

/-- `SchulzePoll.AddVote` from `schulze.go`, in state-passing style. -/
def SchulzePoll.AddVote (poll : SchulzePoll) (vote : AbstractVote) :
    SchulzePoll × Option PollError :=
  match vote with
  | .schulze v => ({ poll with votes := poll.votes ++ [v] }, none)
  | _ => (poll, some (.typeError "vote must be of type SchulzeVote"))

/-- `BasicPoll.TruncateVoters` from `basic_poll.go`: culprits are the votes
with an invalid choice; the poll keeps exactly the valid ones. -/
def BasicPoll.TruncateVoters (poll : BasicPoll) : BasicPoll × List BasicVote :=
  ({ votes := poll.votes.filter (fun v => BasicAnswerIsValid v.choice) },
   poll.votes.filter (fun v => ¬ BasicAnswerIsValid v.choice))

/-- `MedianPoll.TruncateVoters` from `median.go`: every vote above the poll
value is clamped to the poll value in place; the culprits returned are fresh
vote records carrying the original (unclamped) value. -/
def MedianPoll.TruncateVoters (poll : MedianPoll) : MedianPoll × List MedianVote :=
  ({ poll with
      votes := poll.votes.map (fun v =>
        if poll.value < v.value then { v with value := poll.value } else v) },
   poll.votes.filter (fun v => poll.value < v.value))

/-- `SchulzePoll.TruncateVoters` from `schulze.go`: culprits are the votes
whose ranking length differs from `NumOptions`; the poll keeps the rest. -/
def SchulzePoll.TruncateVoters (poll : SchulzePoll) : SchulzePoll × List SchulzeVote :=
  ({ poll with
      votes := poll.votes.filter (fun v => v.ranking.length = poll.numOptions) },
   poll.votes.filter (fun v => ¬ v.ranking.length = poll.numOptions))

/-- The `FiftyPercentMajority` rational `1/2` as a numerator/denominator pair. -/
def FiftyPercentMajority : Nat × Nat := (1, 2)

/-- The `TwoThirdsMajority` rational `2/3` as a numerator/denominator pair. -/
def TwoThirdsMajority : Nat × Nat := (2, 3)

/-- The stable-descending insertion step realizing Go's
`sort.SliceStable(votes, Value-descending)`: the new vote goes after every
already-placed vote of greater-or-equal value. -/
def insertVoteDesc (x : MedianVote) : List MedianVote → List MedianVote
  | [] => [x]
  | y :: ys => if y.value < x.value then x :: y :: ys else y :: insertVoteDesc x ys

/-- Stable sort of median votes by value, descending (the effect of
`sort.SliceStable` in `MedianPoll.SortVotes`). -/
def sortVotesDesc (l : List MedianVote) : List MedianVote :=
  l.foldl (fun acc x => insertVoteDesc x acc) []

/-- `MedianPoll.SortVotes` from `median.go`. -/
def MedianPoll.SortVotes (p : MedianPoll) : MedianPoll :=
  { p with votes := sortVotesDesc p.votes, sorted := true }

/-- `MedianPoll.AssureSorted` from `median.go`. -/
def MedianPoll.AssureSorted (p : MedianPoll) : MedianPoll :=
  if p.sorted then p else p.SortVotes

/-- `MedianPoll.WeightSum` from `median.go` (`uint32` accumulation). -/
def MedianPoll.WeightSum (p : MedianPoll) : Nat :=
  p.votes.foldl (fun s v => wadd s v.voter.weight) 0

/-- `MedianResult` from `median.go`, restricted to the scalar fields the
claims are about (`ValueDetails` is not needed by any claim). -/
structure MedianResult where
  weightSum : Nat
  requiredMajority : Nat
  majorityValue : Nat
  deriving Repr, DecidableEq

/-- One iteration of the tally loop in `MedianPoll.Tally`: the state is
`(currentWeight, foundMajority, majorityValue)`. -/
def medianTallyStep (maj : Nat) (st : Nat × Bool × Nat) (vote : MedianVote) :
    Nat × Bool × Nat :=
  let currentWeight := wadd st.1 vote.voter.weight
  if st.2.1 = false ∧ maj < currentWeight then (currentWeight, true, vote.value)
  else (currentWeight, st.2.1, st.2.2)

/-- `MedianPoll.Tally` from `median.go`: sort if needed, default the majority
to `ComputeMajority(1/2, weightSum)` when the sentinel is passed, then walk
the sorted votes accumulating weights until the strict majority is crossed. -/
def MedianPoll.Tally (poll : MedianPoll) (majority : Nat) : MedianResult :=
  let p := poll.AssureSorted
  let weightSum := p.WeightSum
  let maj :=
    if majority = NoWeight then
      ComputeMajority FiftyPercentMajority.1 FiftyPercentMajority.2 weightSum
    else majority
  let final := p.votes.foldl (medianTallyStep maj) (0, false, NoMedianUnitValue)
  { weightSum := weightSum, requiredMajority := maj, majorityValue := final.2.2 }

/-- Votes sorted by value, descending (`Pairwise` of `value`-≥). -/
def SortedByValueDesc (l : List MedianVote) : Prop :=
  l.Pairwise (fun a b => b.value ≤ a.value)

/-- Modelled from the spec (§4.6 step 4): the majority value is the value of
the first vote of the walk at which the running weight sum strictly exceeds
the required majority, and the no-value sentinel if the walk never crosses. -/
def firstCrossing (maj : Nat) : Nat → List MedianVote → Nat
  | _, [] => NoMedianUnitValue
  | acc, v :: vs =>
      if maj < acc + v.voter.weight then v.value
      else firstCrossing maj (acc + v.voter.weight) vs

/-- Matrices `d` and `p` of `schulze.go`, embedded as total functions; the
Go value is an `n × n` array and all cells outside `[0,n) × [0,n)` are `0`
and never touched. -/
abbrev SchulzeMatrix := Nat → Nat → Nat

/-- Access `ranking[i]` of a Schulze ranking (only used under `i < length`). -/
def rankAt (r : List Int) (i : Nat) : Int := r.getD i 0

/-- One iteration of the vote loop of `SchulzePoll.computeD`: the weight is
added to the running sum before the ranking-length check; a vote of valid
length contributes its weight to `d_strict[i][j]` for every ordered pair
with `ranking[i] < ranking[j]` and to `d_nonstrict[i][j]` for every ordered
pair `i ≠ j` with `ranking[i] ≤ ranking[j]` (Go walks unordered pairs
`i < j` with a three-way case split; per ordered cell this is the same
update, each cell being touched at most once per vote). -/
def computeDStep (n : Nat) (st : SchulzeMatrix × SchulzeMatrix × Nat)
    (vote : SchulzeVote) : SchulzeMatrix × SchulzeMatrix × Nat :=
  let w := vote.voter.weight
  let sum := wadd st.2.2 w
  if vote.ranking.length = n then
    (fun i j =>
       if i < n ∧ j < n ∧ rankAt vote.ranking i < rankAt vote.ranking j then
         wadd (st.1 i j) w
       else st.1 i j,
     fun i j =>
       if i < n ∧ j < n ∧ i ≠ j ∧ rankAt vote.ranking i ≤ rankAt vote.ranking j then
         wadd (st.2.1 i j) w
       else st.2.1 i j,
     sum)
  else (st.1, st.2.1, sum)

/-- `SchulzePoll.computeD` from `schulze.go`. -/
def SchulzePoll.computeD (poll : SchulzePoll) : SchulzeMatrix × SchulzeMatrix × Nat :=
  poll.votes.foldl (computeDStep poll.numOptions) (fun _ _ => 0, fun _ _ => 0, 0)

/-- The aggregate weight that the claim ascribes to `d_strict[i][j]`: total
weight of the valid-length votes ranking `i` strictly before `j`. -/
def dStrictSpec (n : Nat) (votes : List SchulzeVote) (i j : Nat) : Nat :=
  ((votes.filter (fun v => decide (v.ranking.length = n ∧
      rankAt v.ranking i < rankAt v.ranking j))).map (fun v => v.voter.weight)).sum

/-- The aggregate weight that the claim ascribes to `d_nonstrict[i][j]` for
`i ≠ j`: total weight of the valid-length votes ranking `i` before or tied
with `j`. -/
def dNonStrictSpec (n : Nat) (votes : List SchulzeVote) (i j : Nat) : Nat :=
  ((votes.filter (fun v => decide (v.ranking.length = n ∧
      rankAt v.ranking i ≤ rankAt v.ranking j))).map (fun v => v.voter.weight)).sum

/-- The initialization loop of `SchulzePoll.computeP`:
`p[i][j] = d[i][j]` when `i ≠ j` and `d[i][j] > d[j][i]`, else `0`
(cells outside the `n × n` square stay `0`). -/
def schulzeInitP (n : Nat) (d : SchulzeMatrix) : SchulzeMatrix := fun i j =>
  if i < n ∧ j < n ∧ i ≠ j ∧ d j i < d i j then d i j else 0

/-- One outer iteration (intermediate index `m`) of the widening loop of
`SchulzePoll.computeP`.  Within Go's iteration `i = m`, every written cell
`res[j][k]` has `j ≠ m` and `k ≠ m` and is written exactly once, while the
cells read on the right-hand side (`res[j][m]`, `res[m][k]`) lie in row or
column `m` and are never written during this iteration; the sequential
in-place loop therefore equals this simultaneous update. -/
def schulzeRound (n m : Nat) (M : SchulzeMatrix) : SchulzeMatrix := fun j k =>
  if j < n ∧ k < n ∧ j ≠ k ∧ j ≠ m ∧ k ≠ m then
    max (M j k) (min (M j m) (M m k))
  else M j k

/-- The widening loop of `SchulzePoll.computeP` after the outer iterations
for intermediate indices `0, …, m-1`. -/
def pUpTo (n : Nat) (d : SchulzeMatrix) : Nat → SchulzeMatrix
  | 0 => schulzeInitP n d
  | m + 1 => schulzeRound n m (pUpTo n d m)

/-- `SchulzePoll.computeP` from `schulze.go`: initialization followed by the
full `Θ(N³)` widening. -/
def SchulzePoll.computeP (poll : SchulzePoll) (d : SchulzeMatrix) : SchulzeMatrix :=
  pUpTo poll.numOptions d poll.numOptions

/-- The win count of option `i` in `SchulzePoll.rankP`:
`|{j ≠ i : p[i][j] > p[j][i]}|`. -/
def winsCount (n : Nat) (p : SchulzeMatrix) (i : Nat) : Nat :=
  ((List.range n).filter (fun j => decide (i ≠ j ∧ p j i < p i j))).length

/-- Descending insertion for the win-count keys of `rankP`. -/
def insertKeyDesc (x : Nat) : List Nat → List Nat
  | [] => [x]
  | y :: ys => if y < x then x :: y :: ys else y :: insertKeyDesc x ys

/-- Descending sort of the win-count keys (`sort.Slice` with `>` in Go; the
keys are pairwise distinct, so any correct sort produces this unique
strictly-descending arrangement). -/
def sortKeysDesc (l : List Nat) : List Nat :=
  l.foldl (fun acc x => insertKeyDesc x acc) []

/-- `SchulzePoll.rankP` from `schulze.go`: options are grouped by win count
(each group collects its options in ascending index order, since Go appends
them while `i` increases) and the groups are emitted by descending win
count.  `List.dedup` plays the role of the first-appearance key list; since
the keys are then sorted and duplicate-free, the dedup order is irrelevant. -/
def SchulzePoll.rankP (poll : SchulzePoll) (p : SchulzeMatrix) : List (List Nat) :=
  let n := poll.numOptions
  let keys := sortKeysDesc (((List.range n).map (winsCount n p)).dedup)
  keys.map (fun k => (List.range n).filter (fun i => decide (winsCount n p i = k)))

/-- `SchulzeResult` from `schulze.go` (the two diagnostic helper methods are
not needed by any claim). -/
structure SchulzeResult where
  d : SchulzeMatrix
  dNonStrict : SchulzeMatrix
  p : SchulzeMatrix
  rankedGroups : List (List Nat)
  weightSum : Nat

/-- `SchulzePoll.Tally` from `schulze.go`. -/
def SchulzePoll.Tally (poll : SchulzePoll) : SchulzeResult :=
  let dres := poll.computeD
  { d := dres.1
    dNonStrict := dres.2.1
    p := poll.computeP dres.1
    rankedGroups := poll.rankP (poll.computeP dres.1)
    weightSum := dres.2.2 }

/-- The beatpath edge weight from `i` to `j` over the strict-preference
matrix `d`: `d[i][j]` when `d[i][j] > d[j][i]`, else `0` (the quantity the
initialization loop of `computeP` writes into cell `(i, j)`). -/
def w0 (d : SchulzeMatrix) (i j : Nat) : Nat :=
  if d j i < d i j then d i j else 0

/-- The bottleneck (minimum edge weight) of the path
`a, v₁, …, vₘ, b` through the intermediate vertex list. -/
def pathMin (d : SchulzeMatrix) : Nat → List Nat → Nat → Nat
  | a, [], b => w0 d a b
  | a, v :: vs, b => min (w0 d a v) (pathMin d v vs b)

/-- `VoterMap` (`map[string]*Voter`), embedded as an association list in
insertion order; Go's unspecified map iteration order is resolved to the
list order of the embedding. -/
abbrev VoterMap := List (String × Voter)

/-- `PollMap` (`map[string]AbstractPoll`) as an association list. -/
abbrev PollMapL := List (String × AbstractPoll)

/-- A `VoteParser` (interface value): `ParseFromString(s, voter)`. -/
abbrev VoteParserFun := String → Voter → Except PollError AbstractVote

/-- `EmptyVotePolicy` from the ingestion file. -/
inductive EmptyVotePolicy where
  | ignoreEmpty
  | raiseError
  | addAsAye
  | addAsNo
  | addAsAbstention
  deriving Repr, DecidableEq

/-- `PollMatrix` from the ingestion file: head row and body rows of a
ballot CSV. -/
structure PollMatrix where
  head : List String
  body : List (List String)
  deriving Repr, DecidableEq

/-- `NewSchulzeNo` from `schulze.go`: the ranking `[1, 1, …, 0]`. -/
def NewSchulzeNo (numOptions : Nat) : List Int :=
  (List.range numOptions).map (fun i => if i < numOptions - 1 then 1 else 0)

/-- `NewSchulzeAye` from `schulze.go`: the ranking `[0, 0, …, 1]`. -/
def NewSchulzeAye (numOptions : Nat) : List Int :=
  (List.range numOptions).map (fun i => if i = numOptions - 1 then 1 else 0)

/-- `NewSchulzeAbstention` from `schulze.go`: the all-zero ranking. -/
def NewSchulzeAbstention (numOptions : Nat) : List Int :=
  List.replicate numOptions 0

/-- `MedianPoll.GenerateVoteFromBasicAnswer` from `median.go`
(`No = 0`, `Aye = 1`, `Abstention = 2`). -/
def MedianPoll.GenerateVoteFromBasicAnswer (poll : MedianPoll) (voter : Voter)
    (answer : Int) : Except PollError AbstractVote :=
  if answer = 0 then .ok (.median { voter := voter, value := 0 })
  else if answer = 1 then .ok (.median { voter := voter, value := poll.value })
  else if answer = 2 then .error (.typeError "abstention is not supported for median polls")
  else .error (.typeError "invalid poll answer")

/-- `SchulzePoll.GenerateVoteFromBasicAnswer` from `schulze.go`. -/
def SchulzePoll.GenerateVoteFromBasicAnswer (poll : SchulzePoll) (voter : Voter)
    (answer : Int) : Except PollError AbstractVote :=
  if answer = 0 then
    .ok (.schulze { voter := voter, ranking := NewSchulzeNo poll.numOptions })
  else if answer = 1 then
    .ok (.schulze { voter := voter, ranking := NewSchulzeAye poll.numOptions })
  else if answer = 2 then
    .ok (.schulze { voter := voter, ranking := NewSchulzeAbstention poll.numOptions })
  else .error (.typeError "invalid poll answer")

/-- Modelled from the spec: `BasicPoll.GenerateVoteFromBasicAnswer` is not
among the provided source files (only its median and Schulze siblings are);
per §4.8 the basic poll's vote generator is the identity on the basic
answer. -/
def BasicPoll.GenerateVoteFromBasicAnswer (poll : BasicPoll) (voter : Voter)
    (answer : Int) : Except PollError AbstractVote :=
  if answer = 0 ∨ answer = 1 ∨ answer = 2 then
    .ok (.basic { voter := voter, choice := answer })
  else .error (.typeError "invalid poll answer")

/-- Modelled from the spec: `BasicPoll.AddVote` is not among the provided
source files; per §4.9 and the `AbstractPoll` contract it appends a vote of
the matching dynamic type and rejects any other with a type error. -/
def BasicPoll.AddVote (poll : BasicPoll) (vote : AbstractVote) :
    BasicPoll × Option PollError :=
  match vote with
  | .basic v => ({ votes := poll.votes ++ [v] }, none)
  | _ => (poll, some (.typeError "vote must be of type BasicVote"))

/-- `AddVote` dispatch through the `AbstractPoll` interface. -/
def AbstractPoll.AddVote (poll : AbstractPoll) (vote : AbstractVote) :
    AbstractPoll × Option PollError :=
  match poll with
  | .basic p =>
      let r := p.AddVote vote
      (.basic r.1, r.2)
  | .median p =>
      let r := p.AddVote vote
      (.median r.1, r.2)
  | .schulze p =>
      let r := p.AddVote vote
      (.schulze r.1, r.2)

/-- `GenerateVoteFromBasicAnswer` dispatch through `VoteGenerator` (all
three poll kinds implement it). -/
def AbstractPoll.GenerateVoteFromBasicAnswer (poll : AbstractPoll) (voter : Voter)
    (answer : Int) : Except PollError AbstractVote :=
  match poll with
  | .basic p => p.GenerateVoteFromBasicAnswer voter answer
  | .median p => p.GenerateVoteFromBasicAnswer voter answer
  | .schulze p => p.GenerateVoteFromBasicAnswer voter answer

/-- `EmptyVotePolicy.GenerateEmptyVoteForVoter` from the ingestion file. -/
def EmptyVotePolicy.GenerateEmptyVoteForVoter (policy : EmptyVotePolicy)
    (voter : Voter) (poll : AbstractPoll) : Except PollError (Option AbstractVote) :=
  match policy with
  | .ignoreEmpty => .ok none
  | .raiseError => .error (.typeError "empty votes are not allowed")
  | .addAsAye => (poll.GenerateVoteFromBasicAnswer voter 1).map some
  | .addAsNo => (poll.GenerateVoteFromBasicAnswer voter 0).map some
  | .addAsAbstention => (poll.GenerateVoteFromBasicAnswer voter 2).map some

/-- Whitespace predicate of `strings.TrimSpace`, restricted to the ASCII
whitespace the ballot CSV layer produces. -/
def isSpaceChar (c : Char) : Bool :=
  c = ' ' || c = '\t' || c = '\n' || c = '\r'

/-- `strings.TrimSpace`: drop whitespace from both ends. -/
def trimSpaces (s : String) : String :=
  ⟨((s.data.dropWhile isSpaceChar).reverse.dropWhile isSpaceChar).reverse⟩

/-- `PollMatrix.generateSingleVote` from the ingestion file. -/
def generateSingleVote (poll : AbstractPoll) (parser : VoteParserFun)
    (policy : EmptyVotePolicy) (voter : Voter) (s : String) :
    Except PollError (Option AbstractVote) :=
  let t := trimSpaces s
  if t = "" then policy.GenerateEmptyVoteForVoter voter poll
  else (parser t voter).map some

/-- The row loop of `PollMatrix.generateVotesForPoll`, in state-passing
style over the poll being filled.  Looking up the row's voter uses a
default only out of contract: `MatchEntries` has already checked that every
body voter exists. -/
def generateVotesRows (voters : VoterMap) (parser : VoteParserFun)
    (policy : EmptyVotePolicy) (columnIndex : Nat) :
    List (List String) → AbstractPoll → AbstractPoll × Option PollError
  | [], poll => (poll, none)
  | row :: rows, poll =>
      let voter := (voters.lookup (row.headD "")).getD { name := "", weight := 0 }
      let voteString := row.getD columnIndex ""
      match generateSingleVote poll parser policy voter voteString with
      | .error e => (poll, some e)
      | .ok none => generateVotesRows voters parser policy columnIndex rows poll
      | .ok (some vote) =>
          let r := poll.AddVote vote
          match r.2 with
          | some e => (r.1, some e)
          | none => generateVotesRows voters parser policy columnIndex rows r.1

/-- `PollMatrix.generateVotesForPoll` from the ingestion file. -/
def PollMatrix.generateVotesForPoll (m : PollMatrix) (columnIndex : Nat)
    (voters : VoterMap) (poll : AbstractPoll) (parser : VoteParserFun)
    (policy : EmptyVotePolicy) : AbstractPoll × Option PollError :=
  generateVotesRows voters parser policy columnIndex m.body poll

/-- The per-column outcomes of the concurrent fill phase of
`PollMatrix.fillAllPolls`: column index (0-based over `Head[1:]`) paired
with the error produced by that column's task (`none` on success).  The
lookups use defaults only out of contract — `FillPollsWithVotes` has
checked that every matched poll has a parser and a policy. -/
def PollMatrix.fillAllPollsResults (m : PollMatrix) (voters : VoterMap)
    (polls : PollMapL) (parsers : List (String × VoteParserFun))
    (policies : List (String × EmptyVotePolicy)) : List (Nat × Option PollError) :=
  m.head.tail.enum.map (fun ce =>
    let poll := (polls.lookup ce.2).getD (.basic { votes := [] })
    let parser := (parsers.lookup ce.2).getD
      (fun _ _ => .error (.typeError "no parser"))
    let policy := (policies.lookup ce.2).getD .ignoreEmpty
    (ce.1, (m.generateVotesForPoll (ce.1 + 1) voters poll parser policy).2))

/-- The error-selection loop of `PollMatrix.fillAllPolls`: state is
`(err, smallestPollIndex)` with `none` standing for Go's `-1`; a received
result replaces the state only when it carries an error from a strictly
smaller column (or no error was recorded yet). -/
def smallestColumnStep (st : Option PollError × Option Nat)
    (res : Nat × Option PollError) : Option PollError × Option Nat :=
  match res.2, st.2 with
  | some e, none => (some e, some res.1)
  | some e, some sm => if res.1 < sm then (some e, some res.1) else st
  | none, _ => st

/-- The channel-draining loop of `PollMatrix.fillAllPolls` applied to the
per-column results in their arrival order. -/
def selectSmallestColumnError (results : List (Nat × Option PollError)) :
    Option PollError :=
  (results.foldl smallestColumnStep (none, none)).1

/-- `PollMatrix.fillAllPolls` from the ingestion file.  The goroutines'
completion order is the `arrival` parameter — any permutation of
`fillAllPollsResults`; the channel loop then selects the smallest-column
error. -/
def PollMatrix.fillAllPolls (m : PollMatrix) (voters : VoterMap)
    (polls : PollMapL) (parsers : List (String × VoteParserFun))
    (policies : List (String × EmptyVotePolicy))
    (arrival : List (Nat × Option PollError)) : Option PollError :=
  selectSmallestColumnError arrival

/-- The body-row loop of `PollMatrix.MatchEntries`: checks row length,
duplicate voters and roster membership, accumulating matched voters in body
order. -/
def matchVotersRows (head : List String) (voters : VoterMap) :
    List (List String) → VoterMap → Except PollError VoterMap
  | [], acc => .ok acc
  | row :: rows, acc =>
      if row.length ≠ head.length then
        .error (.syntaxError "number of columns in csv is invalid")
      else if (acc.lookup (row.headD "")).isSome then
        .error (.duplicateError ("voter " ++ row.headD "" ++
          " was found multiple times in the matrix body"))
      else
        match voters.lookup (row.headD "") with
        | some voter => matchVotersRows head voters rows (acc ++ [(row.headD "", voter)])
        | none => .error (.semanticError ("voter " ++ row.headD "" ++
            " from matrix not found in allowed voters"))

/-- The head-column loop of `PollMatrix.MatchEntries`: checks duplicate
poll names and poll-map membership, accumulating matched polls in head
order. -/
def matchPollCols (polls : PollMapL) :
    List String → PollMapL → Except PollError PollMapL
  | [], acc => .ok acc
  | name :: names, acc =>
      if (acc.lookup name).isSome then
        .error (.duplicateError ("poll " ++ name ++
          " was found multiple times in the matrix head"))
      else
        match polls.lookup name with
        | some poll => matchPollCols polls names (acc ++ [(name, poll)])
        | none => .error (.semanticError ("poll " ++ name ++
            " from matrix not found in allowed polls"))

/-- `PollMatrix.MatchEntries` from the ingestion file. -/
def PollMatrix.MatchEntries (m : PollMatrix) (voters : VoterMap)
    (polls : PollMapL) : Except PollError (VoterMap × PollMapL) :=
  if m.head.length = 0 then
    .error (.syntaxError "poll matrix must contain at least one column")
  else
    match matchVotersRows m.head voters m.body [] with
    | .error e => .error e
    | .ok matchedVoters =>
        match matchPollCols polls m.head.tail [] with
        | .error e => .error e
        | .ok matchedPolls => .ok (matchedVoters, matchedPolls)

/-- `PollMatrix.FillPollsWithVotes` from the ingestion file.  The missing
voters/polls are listed by walking the declared maps; Go's unspecified map
iteration order is resolved to the association-list (roster/poll-map)
order, consistent with the spec's "sorted or in roster order". -/
def PollMatrix.FillPollsWithVotes (m : PollMatrix) (polls : PollMapL)
    (voters : VoterMap) (parsers : List (String × VoteParserFun))
    (policies : List (String × EmptyVotePolicy))
    (allowMissingVoters allowMissingPolls : Bool)
    (arrival : List (Nat × Option PollError)) :
    Except PollError (VoterMap × PollMapL) :=
  match m.MatchEntries voters polls with
  | .error e => .error e
  | .ok (actualVoters, actualPolls) =>
      if allowMissingVoters = false ∧ actualVoters.length ≠ voters.length then
        .error (.semanticError ("the following voters are missing: " ++
          String.intercalate ", " ((voters.map Prod.fst).filter
            (fun nm => (actualVoters.lookup nm).isNone))))
      else if allowMissingPolls = false ∧ actualPolls.length ≠ polls.length then
        .error (.semanticError ("the following polls are missing: " ++
          String.intercalate ", " ((polls.map Prod.fst).filter
            (fun nm => (actualPolls.lookup nm).isNone))))
      else if (actualPolls.map Prod.fst).any
          (fun nm => (parsers.lookup nm).isNone) then
        .error (.semanticError "there is no parser for a poll")
      else if (actualPolls.map Prod.fst).any
          (fun nm => (policies.lookup nm).isNone) then
        .error (.semanticError "there is no policy for a poll")
      else
        match m.fillAllPolls voters polls parsers policies arrival with
        | some e => .error e
        | none => .ok (actualVoters, actualPolls)

theorem mem_insertVoteDesc (x z : MedianVote) (l : List MedianVote) :
    z ∈ insertVoteDesc x l ↔ z = x ∨ z ∈ l := by
  induction l with
  | nil => simp [insertVoteDesc]
  | cons y ys ih =>
      by_cases h : y.value < x.value
      · simp [insertVoteDesc, h]
      · simp only [insertVoteDesc, if_neg h, List.mem_cons, ih]
        tauto

theorem insertVoteDesc_perm (x : MedianVote) (l : List MedianVote) :
    List.Perm (insertVoteDesc x l) (x :: l) := by
  induction l with
  | nil => exact List.Perm.refl _
  | cons y ys ih =>
      by_cases h : y.value < x.value
      · simp only [insertVoteDesc, if_pos h]
        exact List.Perm.refl _
      · simp only [insertVoteDesc, if_neg h]
        exact (ih.cons y).trans (List.Perm.swap x y ys)

theorem insertVoteDesc_pairwise (x : MedianVote) (l : List MedianVote)
    (hl : SortedByValueDesc l) : SortedByValueDesc (insertVoteDesc x l) := by
  induction l with
  | nil => simp [insertVoteDesc, SortedByValueDesc]
  | cons y ys ih =>
      rcases List.pairwise_cons.mp hl with ⟨hy, hys⟩
      by_cases h : y.value < x.value
      · simp only [insertVoteDesc, if_pos h]
        refine List.pairwise_cons.mpr ⟨?_, hl⟩
        intro z hz
        rcases List.mem_cons.mp hz with rfl | hz
        · omega
        · have := hy z hz
          omega
      · simp only [insertVoteDesc, if_neg h]
        refine List.pairwise_cons.mpr ⟨?_, ih hys⟩
        intro z hz
        rcases (mem_insertVoteDesc x z ys).mp hz with rfl | hz
        · omega
        · exact hy z hz

theorem insertVoteDesc_filter (x : MedianVote) (l : List MedianVote) (c : Nat)
    (hl : SortedByValueDesc l) :
    (insertVoteDesc x l).filter (fun v => decide (v.value = c)) =
      l.filter (fun v => decide (v.value = c)) ++
        (if x.value = c then [x] else []) := by
  induction l with
  | nil =>
      by_cases h : x.value = c <;> simp [insertVoteDesc, h]
  | cons y ys ih =>
      rcases List.pairwise_cons.mp hl with ⟨hy, hys⟩
      by_cases h : y.value < x.value
      · simp only [insertVoteDesc, if_pos h]
        by_cases hx : x.value = c
        · have hnil : (y :: ys).filter (fun v => decide (v.value = c)) = [] := by
            rw [List.filter_eq_nil_iff]
            intro a ha
            rcases List.mem_cons.mp ha with rfl | ha
            · simp only [decide_eq_true_eq]
              omega
            · have := hy a ha
              simp only [decide_eq_true_eq]
              omega
          have hstep : (x :: y :: ys).filter (fun v => decide (v.value = c)) =
              x :: (y :: ys).filter (fun v => decide (v.value = c)) :=
            List.filter_cons_of_pos (by simp [hx])
          rw [hstep, hnil, if_pos hx]
          rfl
        · have hstep : (x :: y :: ys).filter (fun v => decide (v.value = c)) =
              (y :: ys).filter (fun v => decide (v.value = c)) :=
            List.filter_cons_of_neg (by simp [hx])
          rw [hstep, if_neg hx]
          simp
      · simp only [insertVoteDesc, if_neg h]
        by_cases hyc : y.value = c
        · have hstep : (y :: insertVoteDesc x ys).filter (fun v => decide (v.value = c)) =
              y :: (insertVoteDesc x ys).filter (fun v => decide (v.value = c)) :=
            List.filter_cons_of_pos (by simp [hyc])
          have hstep2 : (y :: ys).filter (fun v => decide (v.value = c)) =
              y :: ys.filter (fun v => decide (v.value = c)) :=
            List.filter_cons_of_pos (by simp [hyc])
          rw [hstep, hstep2, ih hys, List.cons_append]
        · have hstep : (y :: insertVoteDesc x ys).filter (fun v => decide (v.value = c)) =
              (insertVoteDesc x ys).filter (fun v => decide (v.value = c)) :=
            List.filter_cons_of_neg (by simp [hyc])
          have hstep2 : (y :: ys).filter (fun v => decide (v.value = c)) =
              ys.filter (fun v => decide (v.value = c)) :=
            List.filter_cons_of_neg (by simp [hyc])
          rw [hstep, hstep2, ih hys]

theorem foldl_insertVoteDesc_props (l acc : List MedianVote)
    (hacc : SortedByValueDesc acc) :
    SortedByValueDesc (l.foldl (fun a x => insertVoteDesc x a) acc) ∧
    ∀ c, (l.foldl (fun a x => insertVoteDesc x a) acc).filter
            (fun v => decide (v.value = c)) =
          acc.filter (fun v => decide (v.value = c)) ++
            l.filter (fun v => decide (v.value = c)) := by
  induction l generalizing acc with
  | nil => exact ⟨hacc, fun c => by simp⟩
  | cons x xs ih =>
      rcases ih (insertVoteDesc x acc) (insertVoteDesc_pairwise x acc hacc) with
        ⟨hsorted, hfilter⟩
      refine ⟨hsorted, fun c => ?_⟩
      rw [List.foldl_cons, hfilter c, insertVoteDesc_filter x acc c hacc]
      by_cases hx : x.value = c
      · simp [List.filter_cons, hx]
      · simp [List.filter_cons, hx]

theorem foldl_insertVoteDesc_perm (l acc : List MedianVote) :
    List.Perm (l.foldl (fun a x => insertVoteDesc x a) acc) (acc ++ l) := by
  induction l generalizing acc with
  | nil =>
      simp only [List.foldl_nil, List.append_nil]
      exact List.Perm.refl _
  | cons x xs ih =>
      rw [List.foldl_cons]
      refine (ih (insertVoteDesc x acc)).trans ?_
      have h1 : List.Perm (insertVoteDesc x acc ++ xs) ((x :: acc) ++ xs) :=
        (insertVoteDesc_perm x acc).append_right xs
      refine h1.trans ?_
      simpa using List.perm_middle.symm

theorem sortVotesDesc_perm (l : List MedianVote) : List.Perm (sortVotesDesc l) l := by
  simpa using foldl_insertVoteDesc_perm l []

theorem sortVotesDesc_sorted (l : List MedianVote) :
    SortedByValueDesc (sortVotesDesc l) :=
  (foldl_insertVoteDesc_props l [] (by simp [SortedByValueDesc])).1

theorem sortVotesDesc_filter (l : List MedianVote) (c : Nat) :
    (sortVotesDesc l).filter (fun v => decide (v.value = c)) =
      l.filter (fun v => decide (v.value = c)) := by
  have := (foldl_insertVoteDesc_props l [] (by simp [SortedByValueDesc])).2 c
  simpa [sortVotesDesc] using this

theorem wadd_lt (a b : Nat) : wadd a b < W32 := by
  have : (0 : Nat) < W32 := by decide
  exact Nat.mod_lt _ this

theorem foldl_wadd_weights (l : List MedianVote) (a : Nat) (ha : a < W32) :
    l.foldl (fun s v => wadd s v.voter.weight) a =
      (a + (l.map (fun v => v.voter.weight)).sum) % W32 := by
  induction l generalizing a with
  | nil =>
      simpa using (Nat.mod_eq_of_lt ha).symm
  | cons x xs ih =>
      rw [List.foldl_cons, ih (wadd a x.voter.weight) (wadd_lt _ _)]
      simp only [wadd, List.map_cons, List.sum_cons]
      rw [Nat.mod_add_mod]
      ring_nf

/-- C8: `ComputeMajority` computes `⌊(num · total) / den⌋` exactly: for any
fraction `num/den` with `num/den ≤ 1` (`den ≠ 0`) and any `Weight` total
(`total < 2^32`), the result is the natural floor division `(num * total) / den`,
which coincides with the rational floor `⌊(num * total : ℚ) / den⌋`; moreover
`majority(1/2, 10) = 5`, `majority(2/3, 10) = 6`, `majority(1/3, 42) = 14`,
and `majority(num/den, 0) = 0` for every fraction. -/
theorem computeMajority_correct (num den total : Nat) (hden : den ≠ 0)
    (hle : num ≤ den) (htot : total < W32) :
    ComputeMajority num den total = (num * total) / den ∧
    ((num * total) / den : Nat) = ⌊((num * total : Nat) : ℚ) / ((den : Nat) : ℚ)⌋₊ ∧
    ComputeMajority 1 2 10 = 5 ∧
    ComputeMajority 2 3 10 = 6 ∧
    ComputeMajority 1 3 42 = 14 ∧
    ComputeMajority num den 0 = 0 := by
  have hkey : (num * total) / den < W32 := by
    have h1 : num * total ≤ den * total := Nat.mul_le_mul_right total hle
    have h2 : (num * total) / den ≤ (den * total) / den := Nat.div_le_div_right h1
    have h3 : (den * total) / den = total := by
      rw [Nat.mul_comm]
      exact Nat.mul_div_cancel total (Nat.pos_of_ne_zero hden)
    omega
  refine ⟨?_, ?_, by decide, by decide, by decide, ?_⟩
  · unfold ComputeMajority
    exact Nat.mod_eq_of_lt hkey
  · rw [Nat.floor_div_nat, Nat.floor_natCast]
  · unfold ComputeMajority
    simp

/-- Closed witness for `computeMajority_correct`. -/
theorem computeMajority_correct_witness :
    ComputeMajority 1 2 10 = 5 ∧ ComputeMajority 1 2 0 = 0 :=
  ⟨(computeMajority_correct 1 2 10 (by decide) (by decide) (by decide)).2.2.1,
   (computeMajority_correct 1 2 10 (by decide) (by decide) (by decide)).2.2.2.2.2⟩

/-- C5: the skeleton-to-poll converter is total and maps each skeleton shape
as specified: negative money → type error; non-negative money → empty median
poll with that ceiling and `sorted = false`; fewer than two options → type
error; exactly two options with `convertToBasic` → empty basic poll; two
options without `convertToBasic`, or more than two → empty Schulze poll with
`numOptions` the number of options; any other shape → type error. -/
theorem skeletonConverter_total (convertToBasic : Bool)
    (skel : AbstractPollSkeleton) :
    ((∃ p, detaultSkeletonConverterGenerator convertToBasic skel = .ok p) ∨
     (∃ msg, detaultSkeletonConverterGenerator convertToBasic skel =
        .error (.typeError msg))) ∧
    (∀ name v, skel = .money name v → v.valueCents < 0 →
      ∃ msg, detaultSkeletonConverterGenerator convertToBasic skel =
        .error (.typeError msg)) ∧
    (∀ name v, skel = .money name v → 0 ≤ v.valueCents →
      detaultSkeletonConverterGenerator convertToBasic skel =
        .ok (.median { value := v.valueCents.toNat, votes := [], sorted := false })) ∧
    (∀ name opts, skel = .choice name opts → opts.length < 2 →
      ∃ msg, detaultSkeletonConverterGenerator convertToBasic skel =
        .error (.typeError msg)) ∧
    (∀ name opts, skel = .choice name opts → opts.length = 2 → convertToBasic = true →
      detaultSkeletonConverterGenerator convertToBasic skel =
        .ok (.basic { votes := [] })) ∧
    (∀ name opts, skel = .choice name opts →
      (2 ≤ opts.length ∧ convertToBasic = false) ∨ 2 < opts.length →
      detaultSkeletonConverterGenerator convertToBasic skel =
        .ok (.schulze { numOptions := opts.length, votes := [] })) ∧
    (skel = .unknownSkeleton →
      ∃ msg, detaultSkeletonConverterGenerator convertToBasic skel =
        .error (.typeError msg)) := by
  refine ⟨?_, ?_, ?_, ?_, ?_, ?_, ?_⟩
  · cases skel with
    | money name v =>
        by_cases h : v.valueCents < 0
        · exact .inr ⟨"value for median poll is not allowed to be < 0",
            by simp only [detaultSkeletonConverterGenerator, if_pos h]⟩
        · exact .inl ⟨.median { value := v.valueCents.toNat, votes := [], sorted := false },
            by simp only [detaultSkeletonConverterGenerator, if_neg h]⟩
    | choice name opts =>
        by_cases h : opts.length = 0 ∨ opts.length = 1
        · exact .inr ⟨"got too few options, but at least two options are required",
            by simp only [detaultSkeletonConverterGenerator]; rw [if_pos h]⟩
        · by_cases h2 : opts.length = 2 ∧ convertToBasic = true
          · refine .inl ⟨.basic { votes := [] }, ?_⟩
            simp only [detaultSkeletonConverterGenerator]
            rw [if_neg h, if_pos h2]
          · refine .inl ⟨.schulze { numOptions := opts.length, votes := [] }, ?_⟩
            simp only [detaultSkeletonConverterGenerator]
            rw [if_neg h, if_neg h2]
    | unknownSkeleton =>
        exact .inr ⟨"only money polls and basic polls are supported", rfl⟩
  · rintro name v rfl h
    exact ⟨"value for median poll is not allowed to be < 0",
      by simp only [detaultSkeletonConverterGenerator, if_pos h]⟩
  · rintro name v rfl h
    have hn : ¬ v.valueCents < 0 := by omega
    simp only [detaultSkeletonConverterGenerator, if_neg hn]
  · rintro name opts rfl h
    have hor : opts.length = 0 ∨ opts.length = 1 := by omega
    exact ⟨"got too few options, but at least two options are required",
      by simp only [detaultSkeletonConverterGenerator]; rw [if_pos hor]⟩
  · rintro name opts rfl h hb
    have hno : ¬ (opts.length = 0 ∨ opts.length = 1) := by omega
    simp only [detaultSkeletonConverterGenerator]
    rw [if_neg hno, if_pos ⟨h, hb⟩]
  · rintro name opts rfl h
    have hno : ¬ (opts.length = 0 ∨ opts.length = 1) := by
      rcases h with ⟨h1, _⟩ | h1 <;> omega
    have hnb : ¬ (opts.length = 2 ∧ convertToBasic = true) := by
      rcases h with ⟨h1, h2⟩ | h1
      · rintro ⟨_, hc⟩
        rw [h2] at hc
        exact Bool.false_ne_true hc
      · rintro ⟨hc, _⟩
        omega
    simp only [detaultSkeletonConverterGenerator]
    rw [if_neg hno, if_neg hnb]
  · rintro rfl
    exact ⟨"only money polls and basic polls are supported", rfl⟩

/-- Closed witness for `skeletonConverter_total`. -/
theorem skeletonConverter_total_witness :
    detaultSkeletonConverterGenerator true
      (.choice "p" ["a", "b", "c"]) = .ok (.schulze { numOptions := 3, votes := [] }) ∧
    detaultSkeletonConverterGenerator true
      (.money "m" { valueCents := 250, currency := "€" }) =
        .ok (.median { value := 250, votes := [], sorted := false }) :=
  ⟨(skeletonConverter_total true (.choice "p" ["a", "b", "c"])).2.2.2.2.2.1
      "p" ["a", "b", "c"] rfl (.inr (by decide)),
   (skeletonConverter_total true
      (.money "m" { valueCents := 250, currency := "€" })).2.2.1
      "m" { valueCents := 250, currency := "€" } rfl (by decide)⟩

/-- C10: `AddVote` on median and Schulze polls rejects a vote of the wrong
dynamic type with a type error leaving the vote list unchanged, and appends a
vote of the matching type unconditionally (no content validation), so a
median vote above the ceiling and a Schulze vote of the wrong ranking length
are both accepted. -/
theorem addVote_dispatch (mp : MedianPoll) (sp : SchulzePoll) :
    (∀ v : MedianVote, mp.AddVote (.median v) =
      ({ mp with votes := mp.votes ++ [v] }, none)) ∧
    (∀ v : BasicVote, mp.AddVote (.basic v) =
      (mp, some (.typeError "vote must be of type MedianVote"))) ∧
    (∀ v : SchulzeVote, mp.AddVote (.schulze v) =
      (mp, some (.typeError "vote must be of type MedianVote"))) ∧
    (∀ v : SchulzeVote, sp.AddVote (.schulze v) =
      ({ sp with votes := sp.votes ++ [v] }, none)) ∧
    (∀ v : BasicVote, sp.AddVote (.basic v) =
      (sp, some (.typeError "vote must be of type SchulzeVote"))) ∧
    (∀ v : MedianVote, sp.AddVote (.median v) =
      (sp, some (.typeError "vote must be of type SchulzeVote"))) ∧
    (∀ v : MedianVote, mp.value < v.value →
      (mp.AddVote (.median v)).1.votes = mp.votes ++ [v] ∧
      (mp.AddVote (.median v)).2 = none) ∧
    (∀ v : SchulzeVote, v.ranking.length ≠ sp.numOptions →
      (sp.AddVote (.schulze v)).1.votes = sp.votes ++ [v] ∧
      (sp.AddVote (.schulze v)).2 = none) := by
  refine ⟨fun v => rfl, fun v => rfl, fun v => rfl, fun v => rfl, fun v => rfl,
    fun v => rfl, fun v _ => ⟨rfl, rfl⟩, fun v _ => ⟨rfl, rfl⟩⟩

/-- Closed witness for `addVote_dispatch`. -/
theorem addVote_dispatch_witness :
    (MedianPoll.AddVote { value := 5, votes := [], sorted := false }
        (.median { voter := { name := "a", weight := 1 }, value := 9 })).1.votes =
      [{ voter := { name := "a", weight := 1 }, value := 9 }] ∧
    (SchulzePoll.AddVote { numOptions := 3, votes := [] }
        (.schulze { voter := { name := "a", weight := 1 }, ranking := [0] })).2 = none :=
  ⟨by
    have := (addVote_dispatch { value := 5, votes := [], sorted := false }
      { numOptions := 3, votes := [] }).2.2.2.2.2.2.1
      { voter := { name := "a", weight := 1 }, value := 9 } (by decide)
    simpa using this.1,
   by
    have := (addVote_dispatch { value := 5, votes := [], sorted := false }
      { numOptions := 3, votes := [] }).2.2.2.2.2.2.2
      { voter := { name := "a", weight := 1 }, ranking := [0] } (by decide)
    exact this.2⟩

/-- C7: truncation is idempotent for all three poll kinds: a second call to
`TruncateVoters` always returns an empty culprit list. -/
theorem truncate_idempotent (bp : BasicPoll) (mp : MedianPoll) (sp : SchulzePoll) :
    (bp.TruncateVoters.1.TruncateVoters).2 = [] ∧
    (mp.TruncateVoters.1.TruncateVoters).2 = [] ∧
    (sp.TruncateVoters.1.TruncateVoters).2 = [] := by
  refine ⟨?_, ?_, ?_⟩
  · simp only [BasicPoll.TruncateVoters, List.filter_filter]
    rw [List.filter_eq_nil_iff]
    intro a _
    cases h : BasicAnswerIsValid a.choice <;> simp [h]
  · simp only [MedianPoll.TruncateVoters]
    rw [List.filter_eq_nil_iff]
    intro a ha
    rcases List.mem_map.mp ha with ⟨b, _, rfl⟩
    by_cases h : mp.value < b.value <;> simp [h]
  · simp only [SchulzePoll.TruncateVoters, List.filter_filter]
    rw [List.filter_eq_nil_iff]
    intro a _
    by_cases h : a.ranking.length = sp.numOptions <;> simp [h]

theorem medianTallyFold_found (maj : Nat) (l : List MedianVote) (acc mval : Nat) :
    (l.foldl (medianTallyStep maj) (acc, true, mval)).2.2 = mval := by
  induction l generalizing acc with
  | nil => rfl
  | cons v vs ih =>
      rw [List.foldl_cons]
      have hstep : medianTallyStep maj (acc, true, mval) v =
          (wadd acc v.voter.weight, true, mval) := by
        simp [medianTallyStep]
      rw [hstep]
      exact ih _

theorem medianTallyFold_notFound (maj : Nat) (l : List MedianVote) (acc : Nat)
    (ha : acc < W32)
    (hsum : acc + (l.map (fun v => v.voter.weight)).sum < W32) :
    (l.foldl (medianTallyStep maj) (acc, false, NoMedianUnitValue)).2.2 =
      firstCrossing maj acc l := by
  induction l generalizing acc with
  | nil => rfl
  | cons v vs ih =>
      rw [List.foldl_cons]
      have hcw : wadd acc v.voter.weight = acc + v.voter.weight := by
        apply Nat.mod_eq_of_lt
        simp only [List.map_cons, List.sum_cons] at hsum
        omega
      by_cases h : maj < acc + v.voter.weight
      · have hstep : medianTallyStep maj (acc, false, NoMedianUnitValue) v =
            (wadd acc v.voter.weight, true, v.value) := by
          simp [medianTallyStep, hcw, h]
        rw [hstep, medianTallyFold_found, firstCrossing, if_pos h]
      · have hstep : medianTallyStep maj (acc, false, NoMedianUnitValue) v =
            (wadd acc v.voter.weight, false, NoMedianUnitValue) := by
          simp [medianTallyStep, hcw, h]
        rw [hstep, firstCrossing, if_neg h, hcw]
        apply ih
        · simp only [List.map_cons, List.sum_cons] at hsum
          omega
        · simp only [List.map_cons, List.sum_cons] at hsum
          omega

theorem assureSorted_perm (poll : MedianPoll) :
    List.Perm poll.AssureSorted.votes poll.votes := by
  unfold MedianPoll.AssureSorted
  by_cases h : poll.sorted
  · rw [if_pos h]
  · rw [if_neg h]
    exact sortVotesDesc_perm poll.votes

/-- C2: for a median poll whose `Sorted` flag is false (or whose votes are
already descending), `Tally` works on the stable value-descending sort of
the votes (ties keep insertion order); the sentinel majority argument is
replaced by `⌊(Σ weights)/2⌋`; a non-sentinel argument is kept; and the
majority value is the value of the first vote of the sorted walk at which
the running weight sum strictly exceeds the required majority, the no-value
sentinel if the walk never crosses it. -/
theorem medianTally_correct (poll : MedianPoll) (majority : Nat)
    (hs : poll.sorted = false ∨ SortedByValueDesc poll.votes)
    (hw : (poll.votes.map (fun v => v.voter.weight)).sum < W32) :
    SortedByValueDesc poll.AssureSorted.votes ∧
    (∀ c, poll.AssureSorted.votes.filter (fun v => decide (v.value = c)) =
        poll.votes.filter (fun v => decide (v.value = c))) ∧
    (poll.Tally NoWeight).requiredMajority =
        (poll.votes.map (fun v => v.voter.weight)).sum / 2 ∧
    (majority ≠ NoWeight → (poll.Tally majority).requiredMajority = majority) ∧
    (poll.Tally majority).weightSum =
        (poll.votes.map (fun v => v.voter.weight)).sum ∧
    (poll.Tally majority).majorityValue =
        firstCrossing (poll.Tally majority).requiredMajority 0
          poll.AssureSorted.votes := by
  have hperm : List.Perm poll.AssureSorted.votes poll.votes := assureSorted_perm poll
  have hsum : (poll.AssureSorted.votes.map (fun v => v.voter.weight)).sum =
      (poll.votes.map (fun v => v.voter.weight)).sum :=
    (hperm.map (fun v => v.voter.weight)).sum_eq
  have hws : poll.AssureSorted.WeightSum =
      (poll.votes.map (fun v => v.voter.weight)).sum := by
    unfold MedianPoll.WeightSum
    rw [foldl_wadd_weights _ 0 (by decide), hsum, Nat.zero_add]
    exact Nat.mod_eq_of_lt hw
  have hsorted : SortedByValueDesc poll.AssureSorted.votes := by
    unfold MedianPoll.AssureSorted
    by_cases h : poll.sorted
    · rw [if_pos h]
      rcases hs with hs | hs
      · rw [hs] at h
        exact absurd h (by simp)
      · exact hs
    · rw [if_neg h]
      exact sortVotesDesc_sorted poll.votes
  refine ⟨hsorted, ?_, ?_, ?_, ?_, ?_⟩
  · intro c
    unfold MedianPoll.AssureSorted
    by_cases h : poll.sorted
    · rw [if_pos h]
    · rw [if_neg h]
      exact sortVotesDesc_filter poll.votes c
  · show (if NoWeight = NoWeight then
        ComputeMajority FiftyPercentMajority.1 FiftyPercentMajority.2
          poll.AssureSorted.WeightSum
      else NoWeight) = _
    rw [if_pos rfl, hws]
    unfold ComputeMajority FiftyPercentMajority
    simp only [Nat.one_mul]
    apply Nat.mod_eq_of_lt
    have := Nat.div_le_self (poll.votes.map (fun v => v.voter.weight)).sum 2
    omega
  · intro hmaj
    show (if majority = NoWeight then
        ComputeMajority FiftyPercentMajority.1 FiftyPercentMajority.2
          poll.AssureSorted.WeightSum
      else majority) = majority
    rw [if_neg hmaj]
  · exact hws
  · show (poll.AssureSorted.votes.foldl (medianTallyStep _)
        (0, false, NoMedianUnitValue)).2.2 = _
    apply medianTallyFold_notFound
    · decide
    · rw [Nat.zero_add, hsum]
      exact hw

/-- Closed witness for `medianTally_correct` (spec scenario S3). -/
theorem medianTally_correct_witness :
    (MedianPoll.Tally
        { value := 1000,
          votes := [{ voter := { name := "one", weight := 4 }, value := 200 },
                    { voter := { name := "two", weight := 3 }, value := 1000 },
                    { voter := { name := "three", weight := 2 }, value := 700 },
                    { voter := { name := "four", weight := 2 }, value := 500 }],
          sorted := false } NoWeight).majorityValue =
      firstCrossing
        (MedianPoll.Tally
          { value := 1000,
            votes := [{ voter := { name := "one", weight := 4 }, value := 200 },
                      { voter := { name := "two", weight := 3 }, value := 1000 },
                      { voter := { name := "three", weight := 2 }, value := 700 },
                      { voter := { name := "four", weight := 2 }, value := 500 }],
            sorted := false } NoWeight).requiredMajority 0
        (MedianPoll.AssureSorted
          { value := 1000,
            votes := [{ voter := { name := "one", weight := 4 }, value := 200 },
                      { voter := { name := "two", weight := 3 }, value := 1000 },
                      { voter := { name := "three", weight := 2 }, value := 700 },
                      { voter := { name := "four", weight := 2 }, value := 500 }],
            sorted := false }).votes ∧
    (MedianPoll.Tally
        { value := 1000,
          votes := [{ voter := { name := "one", weight := 4 }, value := 200 },
                    { voter := { name := "two", weight := 3 }, value := 1000 },
                    { voter := { name := "three", weight := 2 }, value := 700 },
                    { voter := { name := "four", weight := 2 }, value := 500 }],
          sorted := false } NoWeight).requiredMajority = 5 ∧
    (MedianPoll.Tally
        { value := 1000,
          votes := [{ voter := { name := "one", weight := 4 }, value := 200 },
                    { voter := { name := "two", weight := 3 }, value := 1000 },
                    { voter := { name := "three", weight := 2 }, value := 700 },
                    { voter := { name := "four", weight := 2 }, value := 500 }],
          sorted := false } NoWeight).majorityValue = 500 :=
  ⟨(medianTally_correct _ NoWeight (Or.inl rfl) (by decide)).2.2.2.2.2,
   by decide, by decide⟩

theorem sum_map_filter_le (p : SchulzeVote → Bool) (l : List SchulzeVote) :
    ((l.filter p).map (fun v => v.voter.weight)).sum ≤
      (l.map (fun v => v.voter.weight)).sum := by
  induction l with
  | nil => simp
  | cons x xs ih =>
      by_cases h : p x = true
      · rw [List.filter_cons_of_pos h]
        simp only [List.map_cons, List.sum_cons]
        omega
      · rw [List.filter_cons_of_neg (by simp_all)]
        simp only [List.map_cons, List.sum_cons]
        omega

theorem computeDFold_spec (n : Nat) (votes : List SchulzeVote)
    (dst dns : SchulzeMatrix) (s : Nat)
    (hd : ∀ i j, dst i j < W32) (hn : ∀ i j, dns i j < W32) (hs : s < W32) :
    (votes.foldl (computeDStep n) (dst, dns, s)).2.2 =
      (s + (votes.map (fun v => v.voter.weight)).sum) % W32 ∧
    ∀ i j, i < n → j < n → i ≠ j →
      (votes.foldl (computeDStep n) (dst, dns, s)).1 i j =
        (dst i j + dStrictSpec n votes i j) % W32 ∧
      (votes.foldl (computeDStep n) (dst, dns, s)).2.1 i j =
        (dns i j + dNonStrictSpec n votes i j) % W32 := by
  induction votes generalizing dst dns s with
  | nil =>
      refine ⟨by simpa using (Nat.mod_eq_of_lt hs).symm, ?_⟩
      intro i j _ _ _
      constructor
      · simpa [dStrictSpec] using (Nat.mod_eq_of_lt (hd i j)).symm
      · simpa [dNonStrictSpec] using (Nat.mod_eq_of_lt (hn i j)).symm
  | cons v vs ih =>
      rw [List.foldl_cons]
      by_cases hv : v.ranking.length = n
      · have hstep : computeDStep n (dst, dns, s) v =
            (fun i j =>
               if i < n ∧ j < n ∧ rankAt v.ranking i < rankAt v.ranking j then
                 wadd (dst i j) v.voter.weight
               else dst i j,
             fun i j =>
               if i < n ∧ j < n ∧ i ≠ j ∧ rankAt v.ranking i ≤ rankAt v.ranking j then
                 wadd (dns i j) v.voter.weight
               else dns i j,
             wadd s v.voter.weight) := by
          simp [computeDStep, hv]
        rw [hstep]
        have hd2 : ∀ i j, (if i < n ∧ j < n ∧
            rankAt v.ranking i < rankAt v.ranking j then
              wadd (dst i j) v.voter.weight else dst i j) < W32 := by
          intro i j
          by_cases h : i < n ∧ j < n ∧ rankAt v.ranking i < rankAt v.ranking j
          · rw [if_pos h]
            exact wadd_lt _ _
          · rw [if_neg h]
            exact hd i j
        have hn2 : ∀ i j, (if i < n ∧ j < n ∧ i ≠ j ∧
            rankAt v.ranking i ≤ rankAt v.ranking j then
              wadd (dns i j) v.voter.weight else dns i j) < W32 := by
          intro i j
          by_cases h : i < n ∧ j < n ∧ i ≠ j ∧ rankAt v.ranking i ≤ rankAt v.ranking j
          · rw [if_pos h]
            exact wadd_lt _ _
          · rw [if_neg h]
            exact hn i j
        rcases ih _ _ _ hd2 hn2 (wadd_lt s v.voter.weight) with ⟨hsum, hmat⟩
        refine ⟨?_, ?_⟩
        · rw [hsum]
          simp only [wadd, List.map_cons, List.sum_cons]
          rw [Nat.mod_add_mod]
          ring_nf
        · intro i j hi hj hij
          rcases hmat i j hi hj hij with ⟨hm1, hm2⟩
          constructor
          · rw [hm1]
            by_cases hc : rankAt v.ranking i < rankAt v.ranking j
            · rw [if_pos ⟨hi, hj, hc⟩]
              have hfc : dStrictSpec n (v :: vs) i j =
                  v.voter.weight + dStrictSpec n vs i j := by
                unfold dStrictSpec
                rw [List.filter_cons_of_pos (by simp [hv, hc])]
                simp
              rw [hfc]
              simp only [wadd]
              rw [Nat.mod_add_mod]
              ring_nf
            · rw [if_neg (by tauto)]
              have hfc : dStrictSpec n (v :: vs) i j = dStrictSpec n vs i j := by
                unfold dStrictSpec
                rw [List.filter_cons_of_neg (by simp [hv, hc])]
              rw [hfc]
          · rw [hm2]
            by_cases hc : rankAt v.ranking i ≤ rankAt v.ranking j
            · rw [if_pos ⟨hi, hj, hij, hc⟩]
              have hfc : dNonStrictSpec n (v :: vs) i j =
                  v.voter.weight + dNonStrictSpec n vs i j := by
                unfold dNonStrictSpec
                rw [List.filter_cons_of_pos (by simp [hv, hc])]
                simp
              rw [hfc]
              simp only [wadd]
              rw [Nat.mod_add_mod]
              ring_nf
            · rw [if_neg (by tauto)]
              have hfc : dNonStrictSpec n (v :: vs) i j = dNonStrictSpec n vs i j := by
                unfold dNonStrictSpec
                rw [List.filter_cons_of_neg (by simp [hv, hc])]
              rw [hfc]
      · have hstep : computeDStep n (dst, dns, s) v =
            (dst, dns, wadd s v.voter.weight) := by
          simp [computeDStep, hv]
        rw [hstep]
        rcases ih dst dns _ hd hn (wadd_lt s v.voter.weight) with ⟨hsum, hmat⟩
        refine ⟨?_, ?_⟩
        · rw [hsum]
          simp only [wadd, List.map_cons, List.sum_cons]
          rw [Nat.mod_add_mod]
          ring_nf
        · intro i j hi hj hij
          rcases hmat i j hi hj hij with ⟨hm1, hm2⟩
          have hfc1 : dStrictSpec n (v :: vs) i j = dStrictSpec n vs i j := by
            unfold dStrictSpec
            rw [List.filter_cons_of_neg (by simp [hv])]
          have hfc2 : dNonStrictSpec n (v :: vs) i j = dNonStrictSpec n vs i j := by
            unfold dNonStrictSpec
            rw [List.filter_cons_of_neg (by simp [hv])]
          exact ⟨by rw [hm1, hfc1], by rw [hm2, hfc2]⟩

/-- C3: the Schulze tally's `WeightSum` is the total weight of all votes,
including those whose ranking length differs from `NumOptions`, while the
matrices only collect contributions from valid-length votes: for `i ≠ j`
inside the matrix, `d_strict[i][j]` is the total weight of valid votes with
`ranking[i] < ranking[j]` and `d_nonstrict[i][j]` the total weight of valid
votes with `ranking[i] ≤ ranking[j]` (so a tie contributes to both
`d_nonstrict[i][j]` and `d_nonstrict[j][i]` but to neither strict cell). -/
theorem computeD_correct (poll : SchulzePoll)
    (hw : (poll.votes.map (fun v => v.voter.weight)).sum < W32) :
    poll.Tally.weightSum = (poll.votes.map (fun v => v.voter.weight)).sum ∧
    ∀ i j, i < poll.numOptions → j < poll.numOptions → i ≠ j →
      poll.Tally.d i j = dStrictSpec poll.numOptions poll.votes i j ∧
      poll.Tally.dNonStrict i j = dNonStrictSpec poll.numOptions poll.votes i j := by
  have hbase := computeDFold_spec poll.numOptions poll.votes
    (fun _ _ => 0) (fun _ _ => 0) 0
    (fun _ _ => show (0 : Nat) < W32 by decide)
    (fun _ _ => show (0 : Nat) < W32 by decide) (by decide)
  rcases hbase with ⟨hsum, hmat⟩
  have htw : poll.Tally.weightSum = poll.computeD.2.2 := rfl
  have htd : poll.Tally.d = poll.computeD.1 := rfl
  have htn : poll.Tally.dNonStrict = poll.computeD.2.1 := rfl
  refine ⟨?_, ?_⟩
  · rw [htw]
    show (poll.votes.foldl (computeDStep poll.numOptions)
      (fun _ _ => 0, fun _ _ => 0, 0)).2.2 = _
    rw [hsum, Nat.zero_add]
    exact Nat.mod_eq_of_lt hw
  · intro i j hi hj hij
    rcases hmat i j hi hj hij with ⟨h1, h2⟩
    constructor
    · rw [htd]
      show (poll.votes.foldl (computeDStep poll.numOptions)
        (fun _ _ => 0, fun _ _ => 0, 0)).1 i j = _
      rw [h1, Nat.zero_add]
      apply Nat.mod_eq_of_lt
      calc dStrictSpec poll.numOptions poll.votes i j
          ≤ (poll.votes.map (fun v => v.voter.weight)).sum :=
            sum_map_filter_le _ _
        _ < W32 := hw
    · rw [htn]
      show (poll.votes.foldl (computeDStep poll.numOptions)
        (fun _ _ => 0, fun _ _ => 0, 0)).2.1 i j = _
      rw [h2, Nat.zero_add]
      apply Nat.mod_eq_of_lt
      calc dNonStrictSpec poll.numOptions poll.votes i j
          ≤ (poll.votes.map (fun v => v.voter.weight)).sum :=
            sum_map_filter_le _ _
        _ < W32 := hw

/-- Closed witness for `computeD_correct`: two voters over three options,
one of them with an invalid ranking length; the invalid vote counts for the
weight sum but not for the matrices. -/
theorem computeD_correct_witness :
    (SchulzePoll.Tally
      { numOptions := 3,
        votes := [{ voter := { name := "a", weight := 2 }, ranking := [0, 1, 1] },
                  { voter := { name := "b", weight := 5 }, ranking := [0, 1] }] }).weightSum = 7 ∧
    (SchulzePoll.Tally
      { numOptions := 3,
        votes := [{ voter := { name := "a", weight := 2 }, ranking := [0, 1, 1] },
                  { voter := { name := "b", weight := 5 }, ranking := [0, 1] }] }).d 0 1 =
      dStrictSpec 3
        [{ voter := { name := "a", weight := 2 }, ranking := [0, 1, 1] },
         { voter := { name := "b", weight := 5 }, ranking := [0, 1] }] 0 1 ∧
    dStrictSpec 3
        [{ voter := { name := "a", weight := 2 }, ranking := [0, 1, 1] },
         { voter := { name := "b", weight := 5 }, ranking := [0, 1] }] 0 1 = 2 := by
  have h := computeD_correct
    { numOptions := 3,
      votes := [{ voter := { name := "a", weight := 2 }, ranking := [0, 1, 1] },
                { voter := { name := "b", weight := 5 }, ranking := [0, 1] }] }
    (by decide)
  exact ⟨h.1, (h.2 0 1 (by decide) (by decide) (by decide)).1, by decide⟩

theorem mem_insertKeyDesc (x z : Nat) (l : List Nat) :
    z ∈ insertKeyDesc x l ↔ z = x ∨ z ∈ l := by
  induction l with
  | nil => simp [insertKeyDesc]
  | cons y ys ih =>
      by_cases h : y < x
      · simp [insertKeyDesc, h]
      · simp only [insertKeyDesc, if_neg h, List.mem_cons, ih]
        tauto

theorem insertKeyDesc_perm (x : Nat) (l : List Nat) :
    List.Perm (insertKeyDesc x l) (x :: l) := by
  induction l with
  | nil => exact List.Perm.refl _
  | cons y ys ih =>
      by_cases h : y < x
      · simp only [insertKeyDesc, if_pos h]
        exact List.Perm.refl _
      · simp only [insertKeyDesc, if_neg h]
        exact (ih.cons y).trans (List.Perm.swap x y ys)

theorem insertKeyDesc_pairwise (x : Nat) (l : List Nat)
    (hl : l.Pairwise (fun a b => b ≤ a)) :
    (insertKeyDesc x l).Pairwise (fun a b => b ≤ a) := by
  induction l with
  | nil => simp [insertKeyDesc]
  | cons y ys ih =>
      rcases List.pairwise_cons.mp hl with ⟨hy, hys⟩
      by_cases h : y < x
      · simp only [insertKeyDesc, if_pos h]
        refine List.pairwise_cons.mpr ⟨?_, hl⟩
        intro z hz
        rcases List.mem_cons.mp hz with rfl | hz
        · omega
        · have := hy z hz
          omega
      · simp only [insertKeyDesc, if_neg h]
        refine List.pairwise_cons.mpr ⟨?_, ih hys⟩
        intro z hz
        rcases (mem_insertKeyDesc x z ys).mp hz with rfl | hz
        · omega
        · exact hy z hz

theorem foldl_insertKeyDesc_perm (l acc : List Nat) :
    List.Perm (l.foldl (fun a x => insertKeyDesc x a) acc) (acc ++ l) := by
  induction l generalizing acc with
  | nil =>
      simp only [List.foldl_nil, List.append_nil]
      exact List.Perm.refl _
  | cons x xs ih =>
      rw [List.foldl_cons]
      refine (ih (insertKeyDesc x acc)).trans ?_
      have h1 : List.Perm (insertKeyDesc x acc ++ xs) ((x :: acc) ++ xs) :=
        (insertKeyDesc_perm x acc).append_right xs
      refine h1.trans ?_
      simpa using List.perm_middle.symm

theorem sortKeysDesc_perm (l : List Nat) : List.Perm (sortKeysDesc l) l := by
  simpa using foldl_insertKeyDesc_perm l []

theorem foldl_insertKeyDesc_pairwise (l acc : List Nat)
    (hacc : acc.Pairwise (fun a b => b ≤ a)) :
    (l.foldl (fun a x => insertKeyDesc x a) acc).Pairwise (fun a b => b ≤ a) := by
  induction l generalizing acc with
  | nil => exact hacc
  | cons x xs ih =>
      rw [List.foldl_cons]
      exact ih _ (insertKeyDesc_pairwise x acc hacc)

theorem sortKeysDesc_sorted (l : List Nat) :
    (sortKeysDesc l).Pairwise (fun a b => b ≤ a) :=
  foldl_insertKeyDesc_pairwise l [] (by simp)

theorem countP_eq_one_of_nodup (l : List Nat) (hn : l.Nodup) (a : Nat)
    (ha : a ∈ l) (p : Nat → Bool) (hp : ∀ k, p k = true ↔ k = a) :
    l.countP p = 1 := by
  induction l with
  | nil => simp at ha
  | cons x xs ih =>
      rcases List.nodup_cons.mp hn with ⟨hx, hxs⟩
      rcases List.mem_cons.mp ha with rfl | ha2
      · rw [List.countP_cons_of_pos _ _ ((hp _).mpr rfl)]
        have hz : xs.countP p = 0 := by
          rw [List.countP_eq_zero]
          intro k hk hpk
          exact hx ((hp k).mp hpk ▸ hk)
        omega
      · have hpx : ¬ p x = true := by
          intro hpx
          rw [(hp x).mp hpx] at hx
          exact hx ha2
        rw [List.countP_cons_of_neg _ _ hpx]
        exact ih hxs ha2

/-- C4: the ranked groups returned by `rankP` partition the option indices
`0..N-1`: every option lies in exactly one group; two options share a group
iff they have the same win count; the groups are ordered by strictly
decreasing win count; and each group lists its options in ascending index
order. -/
theorem rankP_partition (poll : SchulzePoll) (p : SchulzeMatrix) :
    (∀ i, i < poll.numOptions →
      (poll.rankP p).countP (fun g => decide (i ∈ g)) = 1) ∧
    (∀ i j, i < poll.numOptions → j < poll.numOptions →
      ((∃ g, g ∈ poll.rankP p ∧ i ∈ g ∧ j ∈ g) ↔
        winsCount poll.numOptions p i = winsCount poll.numOptions p j)) ∧
    (poll.rankP p).Pairwise (fun g h => ∀ i ∈ g, ∀ j ∈ h,
      winsCount poll.numOptions p j < winsCount poll.numOptions p i) ∧
    (∀ g, g ∈ poll.rankP p → g.Pairwise (· < ·)) := by
  set n := poll.numOptions with hn
  set keys := sortKeysDesc (((List.range n).map (winsCount n p)).dedup) with hkeys
  have hgroups : poll.rankP p =
      keys.map (fun k => (List.range n).filter
        (fun i => decide (winsCount n p i = k))) := rfl
  have hkperm : List.Perm keys (((List.range n).map (winsCount n p)).dedup) :=
    sortKeysDesc_perm _
  have hknodup : keys.Nodup := hkperm.nodup_iff.mpr (List.nodup_dedup _)
  have hkmem : ∀ k, k ∈ keys ↔ ∃ i, i < n ∧ winsCount n p i = k := by
    intro k
    rw [hkperm.mem_iff, List.mem_dedup, List.mem_map]
    constructor
    · rintro ⟨i, hi, rfl⟩
      exact ⟨i, List.mem_range.mp hi, rfl⟩
    · rintro ⟨i, hi, rfl⟩
      exact ⟨i, List.mem_range.mpr hi, rfl⟩
  have hGmem : ∀ k i, (i ∈ (List.range n).filter
      (fun i => decide (winsCount n p i = k))) ↔ (i < n ∧ winsCount n p i = k) := by
    intro k i
    rw [List.mem_filter, List.mem_range]
    simp
  refine ⟨?_, ?_, ?_, ?_⟩
  · intro i hi
    rw [hgroups, List.countP_map]
    apply countP_eq_one_of_nodup keys hknodup (winsCount n p i)
    · exact (hkmem _).mpr ⟨i, hi, rfl⟩
    · intro k
      simp only [Function.comp_apply, decide_eq_true_eq]
      rw [hGmem k i]
      constructor
      · rintro ⟨_, h⟩
        exact h.symm
      · rintro rfl
        exact ⟨hi, rfl⟩
  · intro i j hi hj
    constructor
    · rintro ⟨g, hg, hig, hjg⟩
      rw [hgroups] at hg
      rcases List.mem_map.mp hg with ⟨k, _, rfl⟩
      rcases (hGmem k i).mp hig with ⟨_, hik⟩
      rcases (hGmem k j).mp hjg with ⟨_, hjk⟩
      rw [hik, hjk]
    · intro hw
      refine ⟨(List.range n).filter
        (fun x => decide (winsCount n p x = winsCount n p i)), ?_, ?_, ?_⟩
      · rw [hgroups]
        exact List.mem_map_of_mem _ ((hkmem _).mpr ⟨i, hi, rfl⟩)
      · exact (hGmem _ i).mpr ⟨hi, rfl⟩
      · exact (hGmem _ j).mpr ⟨hj, hw.symm⟩
  · rw [hgroups, List.pairwise_map]
    have hcomb : keys.Pairwise (fun a b => b < a) := by
      have h1 := sortKeysDesc_sorted (((List.range n).map (winsCount n p)).dedup)
      rw [← hkeys] at h1
      have h2 : keys.Pairwise (· ≠ ·) := hknodup
      exact (h1.and h2).imp (fun h => by omega)
    refine hcomb.imp ?_
    intro k1 k2 hk12 i hig j hjg
    rcases (hGmem k1 i).mp hig with ⟨_, rfl⟩
    rcases (hGmem k2 j).mp hjg with ⟨_, rfl⟩
    exact hk12
  · intro g hg
    rw [hgroups] at hg
    rcases List.mem_map.mp hg with ⟨k, _, rfl⟩
    exact (List.pairwise_lt_range n).filter _

/-- Closed witness for `rankP_partition`. -/
theorem rankP_partition_witness :
    (SchulzePoll.rankP { numOptions := 2, votes := [] }
        (fun i j => if i = 0 ∧ j = 1 then 5 else 0)).countP
      (fun g => decide (0 ∈ g)) = 1 ∧
    SchulzePoll.rankP { numOptions := 2, votes := [] }
        (fun i j => if i = 0 ∧ j = 1 then 5 else 0) = [[0], [1]] :=
  ⟨(rankP_partition { numOptions := 2, votes := [] }
      (fun i j => if i = 0 ∧ j = 1 then 5 else 0)).1 0 (by decide),
   by decide⟩

theorem pathMin_append (d : SchulzeMatrix) (xs ys : List Nat) (a y b : Nat) :
    pathMin d a (xs ++ y :: ys) b = min (pathMin d a xs y) (pathMin d y ys b) := by
  induction xs generalizing a with
  | nil => rfl
  | cons x xs ih =>
      show min (w0 d a x) (pathMin d x (xs ++ y :: ys) b) = _
      rw [ih x, ← min_assoc]
      rfl

theorem pUpTo_mono (n : Nat) (d : SchulzeMatrix) (m a b : Nat) :
    pUpTo n d m a b ≤ pUpTo n d (m + 1) a b := by
  show pUpTo n d m a b ≤ schulzeRound n m (pUpTo n d m) a b
  unfold schulzeRound
  by_cases h : a < n ∧ b < n ∧ a ≠ b ∧ a ≠ m ∧ b ≠ m
  · rw [if_pos h]
    exact Nat.le_max_left _ _
  · rw [if_neg h]

theorem pUpTo_freeze_col (n : Nat) (d : SchulzeMatrix) (m a : Nat) :
    pUpTo n d (m + 1) a m = pUpTo n d m a m := by
  show schulzeRound n m (pUpTo n d m) a m = _
  unfold schulzeRound
  rw [if_neg]
  rintro ⟨_, _, _, _, hbm⟩
  exact hbm rfl

theorem pUpTo_freeze_row (n : Nat) (d : SchulzeMatrix) (m b : Nat) :
    pUpTo n d (m + 1) m b = pUpTo n d m m b := by
  show schulzeRound n m (pUpTo n d m) m b = _
  unfold schulzeRound
  rw [if_neg]
  rintro ⟨_, _, _, ham, _⟩
  exact ham rfl

theorem pUpTo_zero (n : Nat) (d : SchulzeMatrix) (a b : Nat)
    (ha : a < n) (hb : b < n) (hab : a ≠ b) :
    pUpTo n d 0 a b = w0 d a b := by
  show schulzeInitP n d a b = w0 d a b
  unfold schulzeInitP w0
  by_cases h : d b a < d a b
  · rw [if_pos ⟨ha, hb, hab, h⟩, if_pos h]
  · rw [if_neg (by tauto), if_neg h]

theorem pUpTo_round_eq (n : Nat) (d : SchulzeMatrix) (m a b : Nat)
    (ha : a < n) (hb : b < n) (hab : a ≠ b) (ham : a ≠ m) (hbm : b ≠ m) :
    pUpTo n d (m + 1) a b =
      max (pUpTo n d m a b) (min (pUpTo n d m a m) (pUpTo n d m m b)) := by
  show schulzeRound n m (pUpTo n d m) a b = _
  unfold schulzeRound
  rw [if_pos ⟨ha, hb, hab, ham, hbm⟩]

theorem pUpTo_skip_eq (n : Nat) (d : SchulzeMatrix) (m a b : Nat)
    (h : a = m ∨ b = m) :
    pUpTo n d (m + 1) a b = pUpTo n d m a b := by
  show schulzeRound n m (pUpTo n d m) a b = _
  unfold schulzeRound
  rw [if_neg]
  rintro ⟨_, _, _, ham, hbm⟩
  rcases h with rfl | rfl
  · exact ham rfl
  · exact hbm rfl

theorem pathMin_le_pUpTo (n : Nat) (d : SchulzeMatrix) (K : Nat) :
    K ≤ n → ∀ (vs : List Nat), (∀ x ∈ vs, x < K) →
      ∀ a b, a < n → b < n → a ≠ b → pathMin d a vs b ≤ pUpTo n d K a b := by
  induction K with
  | zero =>
      intro _ vs hvs a b ha hb hab
      cases vs with
      | nil =>
          rw [pUpTo_zero n d a b ha hb hab]
          exact Nat.le_refl _
      | cons x xs => exact absurd (hvs x (List.mem_cons_self x xs)) (by omega)
  | succ K ih =>
      intro hKn
      have hKn2 : K ≤ n := by omega
      -- strong induction on the length of the intermediate list
      have main : ∀ len, ∀ (vs : List Nat), vs.length = len →
          (∀ x ∈ vs, x < K + 1) → ∀ a b, a < n → b < n → a ≠ b →
            pathMin d a vs b ≤ pUpTo n d (K + 1) a b := by
        intro len
        induction len using Nat.strong_induction_on with
        | _ len ihlen =>
          intro vs hvslen hvs a b ha hb hab
          by_cases hK : K ∈ vs
          · have hKlt : K < n := by omega
            rcases List.append_of_mem hK with ⟨vs1, vs2, rfl⟩
            have hlen1 : vs1.length < len := by
              rw [← hvslen, List.length_append, List.length_cons]
              omega
            have hlen2 : vs2.length < len := by
              rw [← hvslen, List.length_append, List.length_cons]
              omega
            rw [pathMin_append]
            by_cases haK : a = K
            · subst haK
              refine le_trans (Nat.min_le_right _ _) ?_
              exact ihlen vs2.length hlen2 vs2 rfl
                (fun x hx => hvs x (by simp [hx])) a b ha hb hab
            · by_cases hbK : b = K
              · subst hbK
                refine le_trans (Nat.min_le_left _ _) ?_
                exact ihlen vs1.length hlen1 vs1 rfl
                  (fun x hx => hvs x (by simp [hx])) a b ha hb hab
              · have h1 : pathMin d a vs1 K ≤ pUpTo n d (K + 1) a K :=
                  ihlen vs1.length hlen1 vs1 rfl
                    (fun x hx => hvs x (by simp [hx])) a K ha hKlt haK
                have h2 : pathMin d K vs2 b ≤ pUpTo n d (K + 1) K b :=
                  ihlen vs2.length hlen2 vs2 rfl
                    (fun x hx => hvs x (by simp [hx])) K b hKlt hb
                    (fun h => hbK h.symm)
                rw [pUpTo_freeze_col] at h1
                rw [pUpTo_freeze_row] at h2
                rw [pUpTo_round_eq n d K a b ha hb hab haK hbK]
                refine le_trans ?_ (Nat.le_max_right _ _)
                exact min_le_min h1 h2
          · have hlt : ∀ x ∈ vs, x < K := by
              intro x hx
              have := hvs x hx
              rcases Nat.lt_succ_iff_lt_or_eq.mp this with h | rfl
              · exact h
              · exact absurd hx hK
            exact le_trans (ih hKn2 vs hlt a b ha hb hab) (pUpTo_mono n d K a b)
      intro vs hvs a b ha hb hab
      exact main vs.length vs rfl hvs a b ha hb hab

theorem pUpTo_exists_path (n : Nat) (d : SchulzeMatrix) (K : Nat) :
    K ≤ n → ∀ a b, a < n → b < n → a ≠ b →
      ∃ vs : List Nat, (∀ x ∈ vs, x < K) ∧ pathMin d a vs b = pUpTo n d K a b := by
  induction K with
  | zero =>
      intro _ a b ha hb hab
      exact ⟨[], by simp, (pUpTo_zero n d a b ha hb hab).symm⟩
  | succ K ih =>
      intro hKn a b ha hb hab
      have hKn2 : K ≤ n := by omega
      by_cases hskip : a = K ∨ b = K
      · rcases ih hKn2 a b ha hb hab with ⟨vs, hvs, hpm⟩
        refine ⟨vs, fun x hx => by have := hvs x hx; omega, ?_⟩
        rw [pUpTo_skip_eq n d K a b hskip, hpm]
      · push_neg at hskip
        rcases hskip with ⟨haK, hbK⟩
        have hKlt : K < n := by omega
        rw [pUpTo_round_eq n d K a b ha hb hab haK hbK]
        rcases Nat.le_total (min (pUpTo n d K a K) (pUpTo n d K K b))
            (pUpTo n d K a b) with hle | hle
        · rcases ih hKn2 a b ha hb hab with ⟨vs, hvs, hpm⟩
          refine ⟨vs, fun x hx => by have := hvs x hx; omega, ?_⟩
          rw [Nat.max_eq_left hle, hpm]
        · rcases ih hKn2 a K ha hKlt haK with ⟨vs1, hvs1, hpm1⟩
          rcases ih hKn2 K b hKlt hb (fun h => hbK h.symm) with ⟨vs2, hvs2, hpm2⟩
          refine ⟨vs1 ++ K :: vs2, ?_, ?_⟩
          · intro x hx
            rcases List.mem_append.mp hx with hx | hx
            · have := hvs1 x hx
              omega
            · rcases List.mem_cons.mp hx with rfl | hx
              · omega
              · have := hvs2 x hx
                omega
          · rw [pathMin_append, hpm1, hpm2, Nat.max_eq_right hle]

/-- C1: over any pairwise matrix `d`, the `computeP` initialization writes
`d[i][j]` into `p[i][j]` exactly when `d[i][j] > d[j][i]` (else `0`); after
the triple widening loop `p[a][b] ≥ min(p[a][c], p[c][b])` for pairwise
distinct `a, b, c`; and `p[a][b]` is the maximum over all beatpaths from
`a` to `b` of their minimum edge weight, edges being weighted by `w0`
(every path's bottleneck is `≤ p[a][b]`, and some path attains it). -/
theorem computeP_correct (poll : SchulzePoll) (d : SchulzeMatrix) :
    (∀ i j, i < poll.numOptions → j < poll.numOptions → i ≠ j →
      schulzeInitP poll.numOptions d i j = w0 d i j) ∧
    (∀ a b c, a < poll.numOptions → b < poll.numOptions → c < poll.numOptions →
      a ≠ b → a ≠ c → b ≠ c →
      min (poll.computeP d a c) (poll.computeP d c b) ≤ poll.computeP d a b) ∧
    (∀ a b, a < poll.numOptions → b < poll.numOptions → a ≠ b →
      (∀ vs : List Nat, (∀ x ∈ vs, x < poll.numOptions) →
        pathMin d a vs b ≤ poll.computeP d a b) ∧
      (∃ vs : List Nat, (∀ x ∈ vs, x < poll.numOptions) ∧
        pathMin d a vs b = poll.computeP d a b)) := by
  set n := poll.numOptions with hn
  have hup : ∀ a b, a < n → b < n → a ≠ b →
      (∀ vs : List Nat, (∀ x ∈ vs, x < n) →
        pathMin d a vs b ≤ poll.computeP d a b) := by
    intro a b ha hb hab vs hvs
    exact pathMin_le_pUpTo n d n (Nat.le_refl n) vs hvs a b ha hb hab
  have hex : ∀ a b, a < n → b < n → a ≠ b →
      ∃ vs : List Nat, (∀ x ∈ vs, x < n) ∧
        pathMin d a vs b = poll.computeP d a b := by
    intro a b ha hb hab
    exact pUpTo_exists_path n d n (Nat.le_refl n) a b ha hb hab
  refine ⟨?_, ?_, fun a b ha hb hab => ⟨hup a b ha hb hab, hex a b ha hb hab⟩⟩
  · intro i j hi hj hij
    exact pUpTo_zero n d i j hi hj hij
  · intro a b c ha hb hc hab hac hbc
    rcases hex a c ha hc hac with ⟨vs1, hvs1, hpm1⟩
    rcases hex c b hc hb (fun h => hbc h.symm) with ⟨vs2, hvs2, hpm2⟩
    have hpath : pathMin d a (vs1 ++ c :: vs2) b =
        min (poll.computeP d a c) (poll.computeP d c b) := by
      rw [pathMin_append, hpm1, hpm2]
    have hmem : ∀ x ∈ vs1 ++ c :: vs2, x < n := by
      intro x hx
      rcases List.mem_append.mp hx with hx | hx
      · exact hvs1 x hx
      · rcases List.mem_cons.mp hx with rfl | hx
        · exact hc
        · exact hvs2 x hx
    rw [← hpath]
    exact hup a b ha hb hab _ hmem

/-- Closed witness for `computeP_correct`: `n = 3`, a single strict edge
chain `0 → 1 → 2`; the strongest beatpath from `0` to `2` goes through `1`
with bottleneck `4`. -/
theorem computeP_correct_witness :
    min (SchulzePoll.computeP { numOptions := 3, votes := [] }
          (fun i j => if i = 0 ∧ j = 1 then 5 else if i = 1 ∧ j = 2 then 4 else 0) 0 1)
        (SchulzePoll.computeP { numOptions := 3, votes := [] }
          (fun i j => if i = 0 ∧ j = 1 then 5 else if i = 1 ∧ j = 2 then 4 else 0) 1 2) ≤
      SchulzePoll.computeP { numOptions := 3, votes := [] }
        (fun i j => if i = 0 ∧ j = 1 then 5 else if i = 1 ∧ j = 2 then 4 else 0) 0 2 ∧
    SchulzePoll.computeP { numOptions := 3, votes := [] }
        (fun i j => if i = 0 ∧ j = 1 then 5 else if i = 1 ∧ j = 2 then 4 else 0) 0 2 = 4 :=
  ⟨(computeP_correct { numOptions := 3, votes := [] }
      (fun i j => if i = 0 ∧ j = 1 then 5 else if i = 1 ∧ j = 2 then 4 else 0)).2.1
      0 2 1 (by decide) (by decide) (by decide) (by decide) (by decide) (by decide),
   by decide⟩

theorem selectFold_noBetter (l : List (Nat × Option PollError)) (e : PollError)
    (c : Nat) (h : ∀ ce ∈ l, ce.2 ≠ none → ¬ ce.1 < c) :
    l.foldl smallestColumnStep (some e, some c) = (some e, some c) := by
  induction l with
  | nil => rfl
  | cons x t ih =>
      rw [List.foldl_cons]
      have hstep : smallestColumnStep (some e, some c) x = (some e, some c) := by
        unfold smallestColumnStep
        match hx : x.2 with
        | none => rfl
        | some e2 =>
            have := h x (List.mem_cons_self x t) (by rw [hx]; exact Option.some_ne_none e2)
            simp only
            rw [if_neg this]
      rw [hstep]
      exact ih (fun ce hce => h ce (List.mem_cons_of_mem x hce))

theorem selectFold_reaches (c₀ : Nat) (e₀ : PollError) :
    ∀ (l : List (Nat × Option PollError)),
      (c₀, some e₀) ∈ l →
      (∀ ce ∈ l, ce.2 ≠ none → c₀ ≤ ce.1) →
      ((l.map Prod.fst).Nodup) →
      ∀ st : Option PollError × Option Nat,
        (st = (none, none) ∨ ∃ e c, st = (some e, some c) ∧ c₀ < c) →
        l.foldl smallestColumnStep st = (some e₀, some c₀) := by
  intro l
  induction l with
  | nil =>
      intro hmem
      simp at hmem
  | cons x t ih =>
      intro hmem hmin hnodup st hst
      rw [List.map_cons] at hnodup
      rcases List.nodup_cons.mp hnodup with ⟨hxt, htnodup⟩
      rw [List.foldl_cons]
      by_cases hx : x = (c₀, some e₀)
      · subst hx
        have hstep : smallestColumnStep st (c₀, some e₀) = (some e₀, some c₀) := by
          rcases hst with rfl | ⟨e, c, rfl, hlt⟩
          · rfl
          · unfold smallestColumnStep
            simp only
            rw [if_pos hlt]
        rw [hstep]
        apply selectFold_noBetter
        intro ce hce hcen
        have := hmin ce (List.mem_cons_of_mem _ hce) hcen
        omega
      · have hmem2 : (c₀, some e₀) ∈ t := by
          rcases List.mem_cons.mp hmem with h | h
          · exact absurd h.symm hx
          · exact h
        have hc₀t : c₀ ∈ t.map Prod.fst := List.mem_map_of_mem Prod.fst hmem2
        have hmin2 : ∀ ce ∈ t, ce.2 ≠ none → c₀ ≤ ce.1 :=
          fun ce hce => hmin ce (List.mem_cons_of_mem x hce)
        refine ih hmem2 hmin2 htnodup _ ?_
        match hxe : x.2 with
        | none =>
            have hstep : smallestColumnStep st x = st := by
              unfold smallestColumnStep
              rw [hxe]
            rw [hstep]
            exact hst
        | some e2 =>
            have hxc : c₀ < x.1 := by
              have hle := hmin x (List.mem_cons_self x t)
                (by rw [hxe]; exact Option.some_ne_none e2)
              rcases Nat.lt_or_ge c₀ x.1 with h | h
              · exact h
              · have : c₀ = x.1 := by omega
                rw [this] at hc₀t
                exact absurd hc₀t hxt
            rcases hst with rfl | ⟨e, c, rfl, hlt⟩
            · have hstep : smallestColumnStep (none, none) x = (some e2, some x.1) := by
                unfold smallestColumnStep
                rw [hxe]
              rw [hstep]
              exact .inr ⟨e2, x.1, rfl, hxc⟩
            · by_cases hcc : x.1 < c
              · have hstep : smallestColumnStep (some e, some c) x =
                    (some e2, some x.1) := by
                  unfold smallestColumnStep
                  rw [hxe]
                  simp only
                  rw [if_pos hcc]
                rw [hstep]
                exact .inr ⟨e2, x.1, rfl, hxc⟩
              · have hstep : smallestColumnStep (some e, some c) x =
                    (some e, some c) := by
                  unfold smallestColumnStep
                  rw [hxe]
                  simp only
                  rw [if_neg hcc]
                rw [hstep]
                exact .inr ⟨e, c, rfl, hlt⟩

theorem fillAllPollsResults_columns (m : PollMatrix) (voters : VoterMap)
    (polls : PollMapL) (parsers : List (String × VoteParserFun))
    (policies : List (String × EmptyVotePolicy)) :
    (m.fillAllPollsResults voters polls parsers policies).map Prod.fst =
      List.range m.head.tail.length := by
  unfold PollMatrix.fillAllPollsResults
  rw [List.map_map, ← List.enum_map_fst m.head.tail]
  rfl

/-- C9: whenever the concurrent parse/insert phase produces errors (in
particular for more than one poll), the error that `fillAllPolls` returns
is the one of the poll with the smallest column index, regardless of the
order in which the per-poll task results arrive on the channel. -/
theorem fillAllPolls_deterministic (m : PollMatrix) (voters : VoterMap)
    (polls : PollMapL) (parsers : List (String × VoteParserFun))
    (policies : List (String × EmptyVotePolicy))
    (arrival : List (Nat × Option PollError)) (c₀ : Nat) (e₀ : PollError)
    (hperm : List.Perm arrival (m.fillAllPollsResults voters polls parsers policies))
    (hmem : (c₀, some e₀) ∈ m.fillAllPollsResults voters polls parsers policies)
    (hmin : ∀ ce ∈ m.fillAllPollsResults voters polls parsers policies,
      ce.2 ≠ none → c₀ ≤ ce.1) :
    m.fillAllPolls voters polls parsers policies arrival = some e₀ := by
  have hrn : ((m.fillAllPollsResults voters polls parsers policies).map Prod.fst).Nodup := by
    rw [fillAllPollsResults_columns]
    exact List.nodup_range _
  have han : (arrival.map Prod.fst).Nodup := ((hperm.map Prod.fst).nodup_iff).mpr hrn
  have hfold := selectFold_reaches c₀ e₀ arrival
    (hperm.mem_iff.mpr hmem)
    (fun ce hce => hmin ce (hperm.mem_iff.mp hce))
    han (none, none) (.inl rfl)
  show (arrival.foldl smallestColumnStep (none, none)).1 = some e₀
  rw [hfold]

/-- Closed witness for `fillAllPolls_deterministic`: two failing columns
whose results arrive in reverse order; the column-0 error wins. -/
theorem fillAllPolls_deterministic_witness :
    PollMatrix.fillAllPolls
      { head := ["voter", "p1", "p2"], body := [["a", "1", "2"]] }
      [("a", { name := "a", weight := 1 })]
      [("p1", .basic { votes := [] }), ("p2", .basic { votes := [] })]
      [("p1", fun _ _ => .error (.syntaxError "e1")),
       ("p2", fun _ _ => .error (.syntaxError "e2"))]
      [("p1", .ignoreEmpty), ("p2", .ignoreEmpty)]
      [(1, some (.syntaxError "e2")), (0, some (.syntaxError "e1"))] =
      some (.syntaxError "e1") :=
  fillAllPolls_deterministic
    { head := ["voter", "p1", "p2"], body := [["a", "1", "2"]] }
    [("a", { name := "a", weight := 1 })]
    [("p1", .basic { votes := [] }), ("p2", .basic { votes := [] })]
    [("p1", fun _ _ => .error (.syntaxError "e1")),
     ("p2", fun _ _ => .error (.syntaxError "e2"))]
    [("p1", .ignoreEmpty), ("p2", .ignoreEmpty)]
    [(1, some (.syntaxError "e2")), (0, some (.syntaxError "e1"))]
    0 (.syntaxError "e1")
    (by decide) (by decide) (by decide)

theorem lookup_isSome_iff {α : Type} (l : List (String × α)) (a : String) :
    (l.lookup a).isSome = true ↔ a ∈ l.map Prod.fst := by
  induction l with
  | nil => simp [List.lookup]
  | cons x t ih =>
      rcases x with ⟨k, v⟩
      by_cases h : a = k
      · subst h
        simp [List.lookup_cons]
      · rw [List.lookup_cons]
        have hbeq : (a == k) = false := by
          simpa using h
        rw [hbeq]
        simp only [List.map_cons, List.mem_cons]
        rw [ih]
        tauto

theorem lookup_append_assoc {α : Type} (l1 l2 : List (String × α)) (a : String) :
    (l1 ++ l2).lookup a =
      match l1.lookup a with
      | some v => some v
      | none => l2.lookup a := by
  induction l1 with
  | nil => rfl
  | cons x t ih =>
      rcases x with ⟨k, v⟩
      rw [List.cons_append, List.lookup_cons, List.lookup_cons]
      cases hbeq : a == k
      · simpa using ih
      · rfl

theorem matchVotersRows_ok (head : List String) (voters : VoterMap) :
    ∀ (rows : List (List String)) (acc : VoterMap),
      (∀ row ∈ rows, row.length = head.length) →
      (∀ row ∈ rows, (row.headD "") ∈ voters.map Prod.fst) →
      ((rows.map (fun r => r.headD "")).Nodup) →
      (∀ row ∈ rows, ¬ (row.headD "") ∈ acc.map Prod.fst) →
      ∃ mv, matchVotersRows head voters rows acc = .ok mv ∧
        mv.map Prod.fst = acc.map Prod.fst ++ rows.map (fun r => r.headD "") := by
  intro rows
  induction rows with
  | nil =>
      intro acc _ _ _ _
      exact ⟨acc, rfl, by simp⟩
  | cons row rows ih =>
      intro acc hlen hmem hnodup hdisj
      rw [List.map_cons] at hnodup
      rcases List.nodup_cons.mp hnodup with ⟨hrow, hnodup2⟩
      have hlenr : ¬ row.length ≠ head.length :=
        not_not_intro (hlen row (List.mem_cons_self row rows))
      have hnacc : ¬ (acc.lookup (row.headD "")).isSome = true := by
        rw [lookup_isSome_iff]
        exact hdisj row (List.mem_cons_self row rows)
      have hvs : (voters.lookup (row.headD "")).isSome = true :=
        (lookup_isSome_iff voters _).mpr (hmem row (List.mem_cons_self row rows))
      rcases Option.isSome_iff_exists.mp hvs with ⟨v, hv⟩
      have hstep : matchVotersRows head voters (row :: rows) acc =
          matchVotersRows head voters rows (acc ++ [(row.headD "", v)]) := by
        conv_lhs => rw [matchVotersRows]
        rw [if_neg hlenr, if_neg hnacc, hv]
      rcases ih (acc ++ [(row.headD "", v)])
        (fun r hr => hlen r (List.mem_cons_of_mem row hr))
        (fun r hr => hmem r (List.mem_cons_of_mem row hr))
        hnodup2
        (fun r hr => by
          rw [List.map_append, List.mem_append]
          rintro (h | h)
          · exact hdisj r (List.mem_cons_of_mem row hr) h
          · simp only [List.map_cons, List.map_nil, List.mem_singleton] at h
            exact hrow (h ▸ List.mem_map_of_mem (fun r => r.headD "") hr))
        with ⟨mv, hmv, hkeys⟩
      refine ⟨mv, by rw [hstep]; exact hmv, ?_⟩
      rw [hkeys, List.map_append]
      simp

theorem matchPollCols_ok (polls : PollMapL) :
    ∀ (names : List String) (acc : PollMapL),
      (∀ nm ∈ names, nm ∈ polls.map Prod.fst) →
      names.Nodup →
      (∀ nm ∈ names, ¬ nm ∈ acc.map Prod.fst) →
      ∃ mp, matchPollCols polls names acc = .ok mp ∧
        mp.map Prod.fst = acc.map Prod.fst ++ names := by
  intro names
  induction names with
  | nil =>
      intro acc _ _ _
      exact ⟨acc, rfl, by simp⟩
  | cons nm names ih =>
      intro acc hmem hnodup hdisj
      rcases List.nodup_cons.mp hnodup with ⟨hnm, hnodup2⟩
      have hnacc : ¬ (acc.lookup nm).isSome = true := by
        rw [lookup_isSome_iff]
        exact hdisj nm (List.mem_cons_self nm names)
      have hvs : (polls.lookup nm).isSome = true :=
        (lookup_isSome_iff polls _).mpr (hmem nm (List.mem_cons_self nm names))
      rcases Option.isSome_iff_exists.mp hvs with ⟨p, hp⟩
      have hstep : matchPollCols polls (nm :: names) acc =
          matchPollCols polls names (acc ++ [(nm, p)]) := by
        conv_lhs => rw [matchPollCols]
        rw [if_neg hnacc, hp]
      rcases ih (acc ++ [(nm, p)])
        (fun r hr => hmem r (List.mem_cons_of_mem nm hr))
        hnodup2
        (fun r hr => by
          rw [List.map_append, List.mem_append]
          rintro (h | h)
          · exact hdisj r (List.mem_cons_of_mem nm hr) h
          · simp only [List.map_cons, List.map_nil, List.mem_singleton] at h
            exact hnm (h ▸ hr))
        with ⟨mp, hmp, hkeys⟩
      refine ⟨mp, by rw [hstep]; exact hmp, ?_⟩
      rw [hkeys, List.map_append]
      simp

theorem mem_iff_of_subset_nodup {l1 l2 : List String}
    (h1 : l1.Nodup) (hsub : l1 ⊆ l2) (hlen : l2.length ≤ l1.length) :
    ∀ a, a ∈ l1 ↔ a ∈ l2 := by
  have hsp : l1.Subperm l2 := List.subperm_of_subset h1 hsub
  have hperm : List.Perm l1 l2 := hsp.perm_of_length_le hlen
  exact fun a => hperm.mem_iff

theorem matchEntries_ok (m : PollMatrix) (voters : VoterMap) (polls : PollMapL)
    (hhead : m.head ≠ [])
    (hrows : ∀ row ∈ m.body, row.length = m.head.length)
    (hvnodup : (m.body.map (fun r => r.headD "")).Nodup)
    (hvmem : ∀ row ∈ m.body, (row.headD "") ∈ voters.map Prod.fst)
    (hpnodup : m.head.tail.Nodup)
    (hpmem : ∀ nm ∈ m.head.tail, nm ∈ polls.map Prod.fst) :
    ∃ mv mp, m.MatchEntries voters polls = .ok (mv, mp) ∧
      mv.map Prod.fst = m.body.map (fun r => r.headD "") ∧
      mp.map Prod.fst = m.head.tail := by
  have hhlen : ¬ m.head.length = 0 := by
    cases hh : m.head with
    | nil => exact absurd hh hhead
    | cons x t => simp [hh]
  rcases matchVotersRows_ok m.head voters m.body []
    hrows hvmem hvnodup (fun r _ => by simp) with ⟨mv, hmv, hk1⟩
  rcases matchPollCols_ok polls m.head.tail []
    hpmem hpnodup (fun r _ => by simp) with ⟨mp, hmp, hk2⟩
  refine ⟨mv, mp, ?_, by simpa using hk1, by simpa using hk2⟩
  unfold PollMatrix.MatchEntries
  rw [if_neg hhlen, hmv, hmp]

/-- C6: for a well-formed ballot grid (non-empty head, rectangular body,
unique body voters present in the roster, unique head polls present in the
poll map), ingestion with `allowMissingVoters = false` and
`allowMissingPolls = false` satisfies: if it returns no error, the matched
voters equal the roster set and the matched polls equal the poll-map set;
if some roster voter has no body row, it fails with a `SemanticError`
listing exactly the missing voter names in roster order; and symmetrically,
if every roster voter is present but some poll has no head column, it fails
with a `SemanticError` listing the missing poll names in poll-map order. -/
theorem fillPollsWithVotes_matching (m : PollMatrix) (voters : VoterMap)
    (polls : PollMapL) (parsers : List (String × VoteParserFun))
    (policies : List (String × EmptyVotePolicy))
    (arrival : List (Nat × Option PollError))
    (hhead : m.head ≠ [])
    (hrows : ∀ row ∈ m.body, row.length = m.head.length)
    (hvnodup : (m.body.map (fun r => r.headD "")).Nodup)
    (hvmem : ∀ row ∈ m.body, (row.headD "") ∈ voters.map Prod.fst)
    (hpnodup : m.head.tail.Nodup)
    (hpmem : ∀ nm ∈ m.head.tail, nm ∈ polls.map Prod.fst)
    (hvknodup : (voters.map Prod.fst).Nodup)
    (hpknodup : (polls.map Prod.fst).Nodup) :
    (∀ mv mp,
      m.FillPollsWithVotes polls voters parsers policies false false arrival =
        .ok (mv, mp) →
      (∀ nm, nm ∈ mv.map Prod.fst ↔ nm ∈ voters.map Prod.fst) ∧
      (∀ nm, nm ∈ mp.map Prod.fst ↔ nm ∈ polls.map Prod.fst)) ∧
    ((∃ nm, nm ∈ voters.map Prod.fst ∧ ¬ nm ∈ m.body.map (fun r => r.headD "")) →
      m.FillPollsWithVotes polls voters parsers policies false false arrival =
        .error (.semanticError ("the following voters are missing: " ++
          String.intercalate ", " ((voters.map Prod.fst).filter
            (fun nm => decide (¬ nm ∈ m.body.map (fun r => r.headD ""))))))) ∧
    ((∀ nm ∈ voters.map Prod.fst, nm ∈ m.body.map (fun r => r.headD "")) →
     (∃ nm, nm ∈ polls.map Prod.fst ∧ ¬ nm ∈ m.head.tail) →
      m.FillPollsWithVotes polls voters parsers policies false false arrival =
        .error (.semanticError ("the following polls are missing: " ++
          String.intercalate ", " ((polls.map Prod.fst).filter
            (fun nm => decide (¬ nm ∈ m.head.tail)))))) := by
  rcases matchEntries_ok m voters polls hhead hrows hvnodup hvmem hpnodup hpmem with
    ⟨mvC, mpC, hME, hk1, hk2⟩
  have hred : m.FillPollsWithVotes polls voters parsers policies false false arrival =
      (if false = false ∧ mvC.length ≠ voters.length then
        .error (.semanticError ("the following voters are missing: " ++
          String.intercalate ", " ((voters.map Prod.fst).filter
            (fun nm => (mvC.lookup nm).isNone))))
      else if false = false ∧ mpC.length ≠ polls.length then
        .error (.semanticError ("the following polls are missing: " ++
          String.intercalate ", " ((polls.map Prod.fst).filter
            (fun nm => (mpC.lookup nm).isNone))))
      else if (mpC.map Prod.fst).any (fun nm => (parsers.lookup nm).isNone) then
        .error (.semanticError "there is no parser for a poll")
      else if (mpC.map Prod.fst).any (fun nm => (policies.lookup nm).isNone) then
        .error (.semanticError "there is no policy for a poll")
      else
        match m.fillAllPolls voters polls parsers policies arrival with
        | some e => .error e
        | none => .ok (mvC, mpC)) := by
    unfold PollMatrix.FillPollsWithVotes
    rw [hME]
  have hmvlen : mvC.length = (m.body.map (fun r => r.headD "")).length := by
    rw [← hk1, List.length_map]
  have hmplen : mpC.length = m.head.tail.length := by
    rw [← hk2, List.length_map]
  have hvklen : (voters.map Prod.fst).length = voters.length := List.length_map _ _
  have hpklen : (polls.map Prod.fst).length = polls.length := List.length_map _ _
  have hbodysub : (m.body.map (fun r => r.headD "")) ⊆ voters.map Prod.fst := by
    intro nm hnm
    rcases List.mem_map.mp hnm with ⟨row, hrow, rfl⟩
    exact hvmem row hrow
  have hheadsub : m.head.tail ⊆ polls.map Prod.fst := hpmem
  have hmvlookup : ∀ nm, (mvC.lookup nm).isNone =
      decide (¬ nm ∈ m.body.map (fun r => r.headD "")) := by
    intro nm
    have hiff := lookup_isSome_iff mvC nm
    rw [hk1] at hiff
    cases hl : mvC.lookup nm with
    | some v =>
        have hm1 : nm ∈ m.body.map (fun r => r.headD "") := hiff.mp (by rw [hl]; rfl)
        rw [decide_eq_false (not_not_intro hm1)]
        rfl
    | none =>
        have hm1 : ¬ nm ∈ m.body.map (fun r => r.headD "") := by
          intro hmem
          have h2 := hiff.mpr hmem
          rw [hl] at h2
          exact absurd h2 (by simp)
        rw [decide_eq_true hm1]
        rfl
  have hmplookup : ∀ nm, (mpC.lookup nm).isNone =
      decide (¬ nm ∈ m.head.tail) := by
    intro nm
    have hiff := lookup_isSome_iff mpC nm
    rw [hk2] at hiff
    cases hl : mpC.lookup nm with
    | some v =>
        have hm1 : nm ∈ m.head.tail := hiff.mp (by rw [hl]; rfl)
        rw [decide_eq_false (not_not_intro hm1)]
        rfl
    | none =>
        have hm1 : ¬ nm ∈ m.head.tail := by
          intro hmem
          have h2 := hiff.mpr hmem
          rw [hl] at h2
          exact absurd h2 (by simp)
        rw [decide_eq_true hm1]
        rfl
  refine ⟨?_, ?_, ?_⟩
  · intro mv mp he
    rw [hred] at he
    by_cases h1 : mvC.length = voters.length
    · rw [if_neg (by simp [h1])] at he
      by_cases h2 : mpC.length = polls.length
      · rw [if_neg (by simp [h2])] at he
        by_cases h3 : (mpC.map Prod.fst).any (fun nm => (parsers.lookup nm).isNone)
        · rw [if_pos h3] at he
          exact absurd he (by simp)
        · rw [if_neg h3] at he
          by_cases h4 : (mpC.map Prod.fst).any (fun nm => (policies.lookup nm).isNone)
          · rw [if_pos h4] at he
            exact absurd he (by simp)
          · rw [if_neg h4] at he
            cases hfa : m.fillAllPolls voters polls parsers policies arrival with
            | some e =>
                rw [hfa] at he
                exact absurd he (by simp)
            | none =>
                rw [hfa] at he
                have hmv : mvC = mv ∧ mpC = mp := by
                  have := Except.ok.inj he
                  exact ⟨congrArg Prod.fst this, congrArg Prod.snd this⟩
                rcases hmv with ⟨rfl, rfl⟩
                constructor
                · intro nm
                  rw [hk1]
                  exact mem_iff_of_subset_nodup hvnodup hbodysub
                    (by omega) nm
                · intro nm
                  rw [hk2]
                  exact mem_iff_of_subset_nodup hpnodup hheadsub
                    (by omega) nm
      · rw [if_pos ⟨rfl, h2⟩] at he
        exact absurd he (by simp)
    · rw [if_pos ⟨rfl, h1⟩] at he
      exact absurd he (by simp)
  · rintro ⟨nm0, hnm0v, hnm0b⟩
    have hne : mvC.length ≠ voters.length := by
      intro heq
      have hiff := mem_iff_of_subset_nodup hvnodup hbodysub (by omega)
      exact hnm0b ((hiff nm0).mpr hnm0v)
    rw [hred, if_pos ⟨rfl, hne⟩]
    have hfilter : (voters.map Prod.fst).filter (fun nm => (mvC.lookup nm).isNone) =
        (voters.map Prod.fst).filter
          (fun nm => decide (¬ nm ∈ m.body.map (fun r => r.headD ""))) :=
      List.filter_congr (fun nm _ => hmvlookup nm)
    rw [hfilter]
  · intro hall hex
    rcases hex with ⟨nm0, hnm0p, hnm0h⟩
    have hveq : mvC.length = voters.length := by
      have hsp1 : (m.body.map (fun r => r.headD "")).Subperm (voters.map Prod.fst) :=
        List.subperm_of_subset hvnodup hbodysub
      have hsp2 : (voters.map Prod.fst).Subperm (m.body.map (fun r => r.headD "")) :=
        List.subperm_of_subset hvknodup hall
      have := hsp1.length_le
      have := hsp2.length_le
      omega
    have hpne : mpC.length ≠ polls.length := by
      intro heq
      have hiff := mem_iff_of_subset_nodup hpnodup hheadsub (by omega)
      exact hnm0h ((hiff nm0).mpr hnm0p)
    rw [hred, if_neg (by simp [hveq]), if_pos ⟨rfl, hpne⟩]
    have hfilter : (polls.map Prod.fst).filter (fun nm => (mpC.lookup nm).isNone) =
        (polls.map Prod.fst).filter (fun nm => decide (¬ nm ∈ m.head.tail)) :=
      List.filter_congr (fun nm _ => hmplookup nm)
    rw [hfilter]

/-- Closed witness for `fillPollsWithVotes_matching`: roster `a, b` but the
grid only carries a row for `a`; ingestion rejects, naming `b`. -/
theorem fillPollsWithVotes_matching_witness :
    PollMatrix.FillPollsWithVotes
      { head := ["voter", "p1"], body := [["a", "1"]] }
      [("p1", .basic { votes := [] })]
      [("a", { name := "a", weight := 1 }), ("b", { name := "b", weight := 2 })]
      [("p1", fun _ _ => .error (.syntaxError "x"))]
      [("p1", .ignoreEmpty)]
      false false [] =
      .error (.semanticError "the following voters are missing: b") := by
  have h := (fillPollsWithVotes_matching
    { head := ["voter", "p1"], body := [["a", "1"]] }
    [("a", { name := "a", weight := 1 }), ("b", { name := "b", weight := 2 })]
    [("p1", .basic { votes := [] })]
    [("p1", fun _ _ => .error (.syntaxError "x"))]
    [("p1", .ignoreEmpty)]
    []
    (by decide) (by decide) (by decide) (by decide) (by decide) (by decide)
    (by decide) (by decide)).2.1 ⟨"b", by decide, by decide⟩
  rw [h]
  rfl

end Gopolls
